import Mathlib

/-!
# Verification of the pairwasm_alignment pairwise-alignment engine

Shallow embedding of the repository's Rust sources.  Conventions used
throughout:

* `f32`/`f64` scores are modelled as exact rationals (`ℚ`).  The verified
  claims concern branch selection, comparisons and `max`, which agree with
  IEEE semantics on non-NaN values; `f32::NEG_INFINITY` (used only as the
  initial running maximum and as the "no cutoff" sentinel) is modelled by
  `Option ℚ` with `none` standing for `-∞`.
* Rust panics (invalid discriminants, `Empty` matrix cells, out-of-range
  indexing, `unwrap` of `None`) are modelled as `Option`/`Except` failures.
* Mutable state (the DP matrix, the running maximum, the accumulator
  vectors) becomes explicit state passed through `foldlM` over the same
  iteration order as the source loops.
* The recursive `find_paths` takes a fuel parameter for termination; a
  sufficiently large fuel reproduces the source behaviour.
-/

-- ===================== src/src/bioseq.rs =====================

/-- IUPAC amino acid codes (`Aac` in bioseq.rs, `repr(u8)` with
discriminants 0..19 in declaration order). -/
inductive Aac
  | A | C | D | E | F | G | H | I | K | L | M | N | P | Q | R | S | T | V | W | Y
deriving DecidableEq, Repr, Fintype

/-- The `repr(u8)` discriminant of an `Aac` value (`*code as u16`). -/
def Aac.toNat : Aac → Nat
  | .A => 0
  | .C => 1
  | .D => 2
  | .E => 3
  | .F => 4
  | .G => 5
  | .H => 6
  | .I => 7
  | .K => 8
  | .L => 9
  | .M => 10
  | .N => 11
  | .P => 12
  | .Q => 13
  | .R => 14
  | .S => 15
  | .T => 16
  | .V => 17
  | .W => 18
  | .Y => 19

/-- `ErrorKind` of bioseq.rs (renamed to avoid the clash with the matrix
module's `ErrorKind`). -/
inductive SeqErrorKind
  | EmptyString
  | InvalidCode
  | NonAscii
deriving DecidableEq, Repr

/-- `Aac::char_mapping`: map from valid char values to the enum. -/
def Aac.char_mapping (char_code : Char) : Except SeqErrorKind Aac :=
  match char_code with
  | 'A' => .ok .A
  | 'C' => .ok .C
  | 'D' => .ok .D
  | 'E' => .ok .E
  | 'F' => .ok .F
  | 'G' => .ok .G
  | 'H' => .ok .H
  | 'I' => .ok .I
  | 'K' => .ok .K
  | 'L' => .ok .L
  | 'M' => .ok .M
  | 'N' => .ok .N
  | 'P' => .ok .P
  | 'Q' => .ok .Q
  | 'R' => .ok .R
  | 'S' => .ok .S
  | 'T' => .ok .T
  | 'V' => .ok .V
  | 'W' => .ok .W
  | 'Y' => .ok .Y
  | _ => .error .InvalidCode

/-- `Aac::from_char`: case-insensitive, ASCII only. -/
def Aac.from_char (char_code : Char) : Except SeqErrorKind Aac :=
  if char_code.toNat ≥ 128 then .error .NonAscii
  else Aac.char_mapping char_code.toUpper

/-- `Protein` (bioseq.rs): a validated amino acid sequence. -/
structure Protein where
  sequence : List Aac
deriving DecidableEq, Repr

/-- `Protein::new` (bioseq.rs lines 131-141): rejects the empty string,
then maps every character through `Aac::from_char`, propagating the first
error. -/
def Protein.new (string : String) : Except SeqErrorKind Protein := do
  if string.isEmpty then
    throw .EmptyString
  let sequence ← string.toList.foldlM
    (fun acc c => do
      let a ← Aac.from_char c
      pure (acc ++ [a]))
    ([] : List Aac)
  pure { sequence := sequence }

-- ===================== src/src/utils.rs / pairwise bioseq.rs =====================

/-- `cantor_pairing` (utils.rs): bijective, strictly monotonic pairing.
Arithmetic is on `Nat`; the source's `u16` cannot overflow because the
largest key used is 760. -/
def cantor_pairing (k1 k2 : Nat) : Nat :=
  ((k1 + k2) * (k1 + k2 + 1)) / 2 + k2

/-- `Aac::duple_pairing` (pairwise_alignment bioseq.rs lines 88-93):
represents each code pair as a unique integer key. -/
def Aac.duple_pairing (code_1 code_2 : Aac) : Nat :=
  cantor_pairing code_1.toNat code_2.toNat

-- ===================== src/pairwise_alignment/src/matrix.rs =====================

/-- `ErrorKind` of matrix.rs: payloads are (AttemptedIndex, ActualDimension).
(The `MatError` wrapper also carries a display message derived from the
kind; the message is not modelled.) -/
inductive MatErrorKind
  | OutOfDimension : Nat × Nat → Nat × Nat → MatErrorKind
  | EmptyAtIndex : Nat × Nat → Nat × Nat → MatErrorKind
  | Filled : Nat × Nat → MatErrorKind
deriving DecidableEq, Repr

/-- `Matrix<T>` (matrix.rs): dense row-major storage.  (Named `Matrix'`
because Mathlib already declares `Matrix`.) -/
structure Matrix' (α : Type) where
  rows : Nat
  cols : Nat
  container : List α

/-- `Matrix::full`: rows*cols copies of a constant value. -/
def Matrix'.full {α : Type} (value : α) (rows cols : Nat) : Matrix' α :=
  { rows := rows, cols := cols, container := List.replicate (rows * cols) value }

/-- `Matrix::map_2dim_to_1dim_index` (matrix.rs lines 132-140): fails with
`OutOfDimension` when `row ≥ rows` or `col ≥ cols`. -/
def Matrix'.map_2dim_to_1dim_index {α : Type} (m : Matrix' α) (row col : Nat) :
    Except MatErrorKind Nat :=
  if row ≥ m.rows ∨ col ≥ m.cols then
    .error (.OutOfDimension (row, col) (m.rows, m.cols))
  else
    .ok (row * m.cols + col)

/-- `Matrix::get` (matrix.rs lines 91-100): index mapping (bounds check),
then `EmptyAtIndex` for a location not yet pushed. -/
def Matrix'.get {α : Type} (m : Matrix' α) (row col : Nat) : Except MatErrorKind α :=
  match m.map_2dim_to_1dim_index row col with
  | .error e => .error e
  | .ok index =>
    if h : index < m.container.length then
      .ok (m.container.get ⟨index, h⟩)
    else
      .error (.EmptyAtIndex (row, col) (m.rows, m.cols))

/-- `Matrix::get_mut` (matrix.rs lines 120-129): identical lookup logic to
`get`; in this pure model the returned mutable reference is represented by
the looked-up value. -/
def Matrix'.get_mut {α : Type} (m : Matrix' α) (row col : Nat) : Except MatErrorKind α :=
  match m.map_2dim_to_1dim_index row col with
  | .error e => .error e
  | .ok index =>
    if h : index < m.container.length then
      .ok (m.container.get ⟨index, h⟩)
    else
      .error (.EmptyAtIndex (row, col) (m.rows, m.cols))

-- ===================== src/pairwise_alignment/src/scoring.rs =====================

/-- `param.sort()` on the two-element array `[code_1, code_2]` inside
`AaSymTable::search`: orders the pair by the derived `Ord` (declaration
order, i.e. the `repr(u8)` discriminant). -/
def Aac.sortPair (code_1 code_2 : Aac) : Aac × Aac :=
  if code_1.toNat ≤ code_2.toNat then (code_1, code_2) else (code_2, code_1)

/-- `AaSymTable::search` (scoring.rs lines 25-35): sorts the pair, builds
the pairing-function key, and looks the key up in the table.  The source
uses `binary_search_by` over keys that are sorted and unique, which agrees
with a linear lookup; the "index not found" panic is modelled as `none`. -/
def AaSymTable.search (schema : List (Nat × Int)) (code_1 code_2 : Aac) : Option Int :=
  let param := Aac.sortPair code_1 code_2
  let key := Aac.duple_pairing param.1 param.2
  (schema.find? (fun e => e.1 = key)).map (fun e => e.2)
/-- Substitution table BLOSUM62 (src/pairwise_alignment/src/scoring.rs), stored as
    (pairing-function key, score) entries for the upper triangle. -/
def BLOSUM62 : List (Nat × Int) := [
  (0, 4), (2, 0), (4, 9), (5, -2), (8, -3), (9, -1), (12, 6), (13, -4),
  (14, -2), (18, 2), (19, -2), (20, 0), (24, 5), (25, -3), (26, -3), (27, -2),
  (32, -3), (33, -1), (34, -3), (35, -1), (40, 6), (41, -2), (42, -1), (43, -1),
  (44, -1), (50, -3), (51, 0), (52, -3), (53, -3), (54, -1), (60, 6), (61, -1),
  (62, -3), (63, -1), (64, -1), (65, -1), (72, -2), (73, 0), (74, 1), (75, -4),
  (76, -1), (77, -2), (84, 8), (85, -4), (86, -3), (87, -3), (88, -3), (89, -3),
  (90, -1), (98, -3), (99, -2), (100, 0), (101, -2), (102, 1), (103, -3), (104, -1),
  (112, 4), (113, -1), (114, -4), (115, 0), (116, 0), (117, -1), (118, -3), (119, -1),
  (128, -3), (129, -3), (130, -3), (131, -3), (132, -1), (133, 0), (134, -3), (135, 1),
  (144, 5), (145, 2), (146, -2), (147, 0), (148, -4), (149, 2), (150, -2), (151, -1),
  (152, 0), (162, -2), (163, 1), (164, 1), (165, -2), (166, -3), (167, 0), (168, 0),
  (169, -1), (170, 0), (180, 4), (181, -1), (182, -3), (183, -2), (184, -2), (185, -3),
  (186, 0), (187, -1), (188, -1), (189, -3), (200, 2), (201, 0), (202, -3), (203, 0),
  (204, -2), (205, -2), (206, -1), (207, -3), (208, -2), (209, -2), (220, 5), (221, -3),
  (222, -1), (223, -3), (224, 0), (225, 0), (226, -2), (227, -2), (228, -4), (229, -2),
  (242, -2), (243, -3), (244, 1), (245, -3), (246, -1), (247, -2), (248, -1), (249, -3),
  (250, -3), (264, 6), (265, -2), (266, -2), (267, 2), (268, -2), (269, -2), (270, -3),
  (271, 1), (272, -2), (288, -2), (289, 0), (290, -2), (291, 0), (292, -1), (293, -3),
  (294, -2), (295, 3), (312, 7), (313, 0), (314, -1), (315, -2), (316, -1), (317, 3),
  (318, -2), (319, -3), (338, -1), (339, 0), (340, -1), (341, -1), (342, -2), (343, -3),
  (344, 2), (364, 5), (365, -2), (366, 1), (367, -1), (368, 1), (369, -3), (370, -1),
  (392, 1), (393, -1), (394, 0), (395, 1), (396, -2), (397, -2), (420, 5), (421, 0),
  (422, -1), (423, -3), (424, -1), (425, -1), (450, -1), (451, -1), (452, -2), (453, -4),
  (454, -1), (480, 4), (481, -1), (482, -2), (483, -4), (484, -2), (512, 1), (513, -3),
  (514, -2), (515, -3), (544, 5), (545, -2), (546, -3), (547, -1), (578, 0), (579, -3),
  (580, -2), (612, 4), (613, -2), (614, -2), (648, -3), (649, -2), (684, 11), (685, -1),
  (722, 2), (760, 7)]

/-- Substitution table BLOSUM45 (src/pairwise_alignment/src/scoring.rs), stored as
    (pairing-function key, score) entries for the upper triangle. -/
def BLOSUM45 : List (Nat × Int) := [
  (0, 5), (2, -1), (4, 12), (5, -2), (8, -3), (9, -1), (12, 7), (13, -3),
  (14, -2), (18, 2), (19, -2), (20, 0), (24, 6), (25, -4), (26, -3), (27, -2),
  (32, -3), (33, -1), (34, -3), (35, -1), (40, 8), (41, -2), (42, 0), (43, -3),
  (44, -1), (50, -3), (51, 0), (52, -4), (53, -3), (54, -1), (60, 7), (61, -2),
  (62, -3), (63, 0), (64, -2), (65, -1), (72, -2), (73, 0), (74, 1), (75, -3),
  (76, -2), (77, -1), (84, 10), (85, -4), (86, -3), (87, -2), (88, -3), (89, -2),
  (90, -1), (98, -3), (99, -2), (100, 1), (101, -2), (102, 2), (103, -4), (104, -1),
  (112, 5), (113, -1), (114, -3), (115, 0), (116, 0), (117, -1), (118, -3), (119, -2),
  (128, -3), (129, -2), (130, -2), (131, -2), (132, 0), (133, 0), (134, -3), (135, 1),
  (144, 5), (145, 2), (146, 0), (147, 0), (148, -3), (149, 2), (150, -1), (151, -1),
  (152, 0), (162, -3), (163, 2), (164, 1), (165, -2), (166, -4), (167, 0), (168, 0),
  (169, -1), (170, 0), (180, 5), (181, -1), (182, -2), (183, -2), (184, -2), (185, -2),
  (186, 0), (187, -1), (188, -1), (189, -2), (200, 2), (201, 0), (202, -2), (203, 1),
  (204, -2), (205, -2), (206, -1), (207, -3), (208, -5), (209, -2), (220, 6), (221, -3),
  (222, -1), (223, -2), (224, 0), (225, 0), (226, -1), (227, -3), (228, -4), (229, -3),
  (242, -2), (243, -3), (244, 1), (245, -3), (246, -1), (247, -2), (248, 0), (249, -3),
  (250, -2), (264, 6), (265, -2), (266, -2), (267, 3), (268, -2), (269, -2), (270, -3),
  (271, 1), (272, -2), (288, -2), (289, 0), (290, -2), (291, -1), (292, -1), (293, -3),
  (294, -2), (295, 3), (312, 9), (313, 0), (314, -1), (315, -3), (316, -1), (317, 3),
  (318, -3), (319, -3), (338, -1), (339, 0), (340, -2), (341, -1), (342, -2), (343, -2),
  (344, 2), (364, 6), (365, -2), (366, 1), (367, -1), (368, 1), (369, -2), (370, 0),
  (392, 1), (393, -1), (394, 0), (395, 1), (396, -2), (397, -1), (420, 7), (421, 0),
  (422, -1), (423, -3), (424, -2), (425, 0), (450, -1), (451, -1), (452, -3), (453, -4),
  (454, 0), (480, 4), (481, -1), (482, -3), (483, -3), (484, -2), (512, 2), (513, -2),
  (514, -2), (515, -3), (544, 5), (545, -1), (546, -2), (547, -1), (578, 0), (579, -4),
  (580, -1), (612, 5), (613, -3), (614, -2), (648, -3), (649, -1), (684, 15), (685, -1),
  (722, 3), (760, 8)]

/-- Substitution table PAM160 (src/pairwise_alignment/src/scoring.rs), stored as
    (pairing-function key, score) entries for the upper triangle. -/
def PAM160 : List (Nat × Int) := [
  (0, 2), (2, -2), (4, 9), (5, 0), (8, -5), (9, 0), (12, 4), (13, -5),
  (14, -3), (18, 3), (19, -5), (20, 1), (24, 4), (25, -6), (26, -3), (27, -2),
  (32, -5), (33, 0), (34, -3), (35, -1), (40, 7), (41, 0), (42, 0), (43, -2),
  (44, -2), (50, -4), (51, 0), (52, -3), (53, -5), (54, -2), (60, 4), (61, -2),
  (62, -2), (63, 0), (64, -6), (65, -1), (72, -3), (73, 0), (74, -1), (75, -4),
  (76, -5), (77, 0), (84, 6), (85, -3), (86, -5), (87, -3), (88, -3), (89, -4),
  (90, 1), (98, -3), (99, -2), (100, 1), (101, -2), (102, 2), (103, -3), (104, -1),
  (112, 5), (113, -1), (114, -4), (115, 0), (116, 1), (117, -2), (118, -5), (119, -2),
  (128, -2), (129, -2), (130, -3), (131, -3), (132, -1), (133, 1), (134, -3), (135, 1),
  (144, 4), (145, 2), (146, -3), (147, 0), (148, -4), (149, 2), (150, -2), (151, 0),
  (152, 1), (162, -3), (163, 2), (164, 2), (165, -1), (166, -5), (167, -2), (168, 0),
  (169, -2), (170, 0), (180, 5), (181, 0), (182, -2), (183, -1), (184, -2), (185, -4),
  (186, 0), (187, -1), (188, -2), (189, -5), (200, 3), (201, 1), (202, -2), (203, 2),
  (204, -3), (205, -3), (206, -1), (207, -3), (208, -7), (209, -3), (220, 7), (221, -3),
  (222, -2), (223, -2), (224, 1), (225, 1), (226, -3), (227, -2), (228, -6), (229, 0),
  (242, -2), (243, -3), (244, 0), (245, -2), (246, -1), (247, -1), (248, -2), (249, -7),
  (250, -4), (264, 3), (265, -2), (266, -2), (267, 3), (268, -2), (269, -2), (270, -2),
  (271, -1), (272, -4), (288, -1), (289, -1), (290, -3), (291, -1), (292, 0), (293, -2),
  (294, -7), (295, 5), (312, 5), (313, 0), (314, -1), (315, -3), (316, 0), (317, 3),
  (318, -3), (319, -5), (338, 0), (339, -1), (340, -2), (341, -2), (342, -3), (343, -5),
  (344, 0), (364, 5), (365, -1), (366, 1), (367, -1), (368, 1), (369, -4), (370, -2),
  (392, 1), (393, 1), (394, 0), (395, 1), (396, -2), (397, -4), (420, 6), (421, -1),
  (422, 0), (423, -2), (424, -4), (425, -2), (450, -1), (451, -1), (452, -2), (453, -4),
  (454, -3), (480, 2), (481, -1), (482, -2), (483, -5), (484, -2), (512, 1), (513, -3),
  (514, -5), (515, -5), (544, 3), (545, -1), (546, 1), (547, -4), (578, 0), (579, -2),
  (580, -4), (612, 4), (613, -6), (614, -3), (648, -6), (649, -3), (684, 12), (685, -3),
  (722, -1), (760, 8)]

-- ===================== src/src/scoring_schema/gap_penalty.rs =====================

/-- Cost-range constants of gap_penalty.rs. -/
def MIN_OPEN_COST : ℚ := 1

/-- See `MIN_OPEN_COST`. -/
def MAX_OPEN_COST : ℚ := 100

/-- See `MIN_OPEN_COST`. -/
def MIN_EXTEND_COST : ℚ := 0

/-- See `MIN_OPEN_COST`. -/
def MAX_EXTEND_COST : ℚ := 10

/-- `PenaltyKind` (gap_penalty.rs). -/
inductive PenaltyKind
  | Affine (open_cost extend_cost : ℚ)
  | Linear (extend_cost : ℚ)

/-- `Affine` gap model (gap_penalty.rs lines 32-35):
`f(length) = open_cost + extend_cost * length`. -/
structure Affine where
  open_cost : ℚ
  extend_cost : ℚ
deriving DecidableEq, Repr

/-- `Affine::new` (gap_penalty.rs lines 38-45): `check_open_cost` and
`check_extend_cost` panic outside the configured ranges (modelled as
`none`). -/
def Affine.new (open_cost extend_cost : ℚ) : Option Affine :=
  if MIN_OPEN_COST ≤ open_cost ∧ open_cost ≤ MAX_OPEN_COST then
    if MIN_EXTEND_COST ≤ extend_cost ∧ extend_cost ≤ MAX_EXTEND_COST then
      some { open_cost := open_cost, extend_cost := extend_cost }
    else none
  else none

/-- `<Affine as GapPenalty>::function`: `check_length` panics at length 0
(modelled as `none`). -/
def Affine.function (p : Affine) (length : Nat) : Option ℚ :=
  if length = 0 then none
  else some (p.open_cost + p.extend_cost * (length : ℚ))

/-- `<Affine as GapPenalty>::open` (gap_penalty.rs lines 53-55). -/
def Affine.open' (p : Affine) : ℚ := p.open_cost

/-- `<Affine as GapPenalty>::extend` (gap_penalty.rs lines 56-58). -/
def Affine.extend (p : Affine) : ℚ := p.extend_cost

/-- `Linear` gap model (gap_penalty.rs lines 64-66):
`f(length) = extend_cost * length`, open cost constant 0. -/
structure Linear where
  extend_cost : ℚ
deriving DecidableEq, Repr

/-- `Linear::new` (gap_penalty.rs lines 69-72). -/
def Linear.new (extend_cost : ℚ) : Option Linear :=
  if MIN_EXTEND_COST ≤ extend_cost ∧ extend_cost ≤ MAX_EXTEND_COST then
    some { extend_cost := extend_cost }
  else none

/-- `<Linear as GapPenalty>::function`. -/
def Linear.function (p : Linear) (length : Nat) : Option ℚ :=
  if length = 0 then none
  else some (p.extend_cost * (length : ℚ))

/-- `<Linear as GapPenalty>::open`. -/
def Linear.open' (_p : Linear) : ℚ := 0

/-- `<Linear as GapPenalty>::extend`. -/
def Linear.extend (p : Linear) : ℚ := p.extend_cost

/-- The `GapPenalty` trait object (`Box<dyn GapPenalty>`), modelled as a
record of its three methods. -/
structure GapPenaltyDyn where
  function : Nat → Option ℚ
  open' : ℚ
  extend : ℚ

/-- `penalty_builder` (gap_penalty.rs lines 21-28). -/
def penalty_builder : PenaltyKind → Option GapPenaltyDyn
  | .Affine open_cost extend_cost =>
    (Affine.new open_cost extend_cost).map
      (fun p => { function := p.function, open' := p.open', extend := p.extend })
  | .Linear extend_cost =>
    (Linear.new extend_cost).map
      (fun p => { function := p.function, open' := p.open', extend := p.extend })

-- ===================== src/src/scoring_schema/mod.rs + aminoacid_schema.rs =====================

/-- `AaScoringKind` (aminoacid_schema.rs). -/
inductive AaScoringKind
  | Blosum45
  | Blosum62
  | Pam160

/-- The similarity component (`Similarity::read_score`) of each supported
matrix, dispatched over `AaScoringKind`.  The aligner crate's data file
(`scoring_schema/aminoacid_data.rs`) is not among the provided sources;
the tables are taken from the sibling crate's scoring.rs (`BLOSUM62`,
`BLOSUM45`, `PAM160`), which the tests of both crates agree on.  The
lookup-miss panic is modelled as `none`. -/
def similarity_read_score (kind : AaScoringKind) (code_1 code_2 : Aac) : Option Int :=
  match kind with
  | .Blosum45 => AaSymTable.search BLOSUM45 code_1 code_2
  | .Blosum62 => AaSymTable.search BLOSUM62 code_1 code_2
  | .Pam160 => AaSymTable.search PAM160 code_1 code_2

/-- The `ScoringSchema` trait (scoring_schema/mod.rs lines 38-49), modelled
as a record of its four getters.  `get_score` and `get_function` are
`Option`-valued because their implementations can panic. -/
structure ScoringSchema (α : Type) where
  get_score : α → α → Option Int
  get_function : Nat → Option ℚ
  get_open : ℚ
  get_extend : ℚ

/-- `AaScoringSchema::new` composed with its `ScoringSchema` impl
(scoring_schema/mod.rs lines 61-81): builds the trait-object record the
aligners consume.  NOTE the source's `get_extend` (mod.rs lines 78-80)
returns `self.penalty.open()`, which is reproduced faithfully here. -/
def AaScoringSchema.mkCfg (score_kind : AaScoringKind) (penalty_kind : PenaltyKind) :
    Option (ScoringSchema Aac) :=
  (penalty_builder penalty_kind).map (fun penalty =>
    { get_score := fun code_1 code_2 => similarity_read_score score_kind code_1 code_2
      get_function := penalty.function
      get_open := penalty.open'
      get_extend := penalty.open' })

-- ===================== src/src/aligner/utils.rs =====================

/-- A matrix coordinate `[row, col]`. -/
abbrev Coord := Nat × Nat

/-- `BackTrack` (aligner/utils.rs lines 13-30): direction set + score of a
DP cell.  `T` = gap at top sequence (vertical move), `D` = match/mismatch
(diagonal move), `L` = gap at left sequence (horizontal move). -/
inductive BackTrack
  | Empty
  | T (v : ℚ)
  | D (v : ℚ)
  | L (v : ℚ)
  | DT (v : ℚ)
  | DL (v : ℚ)
  | TL (v : ℚ)
  | All (v : ℚ)
deriving DecidableEq, Repr

/-- First component of `BackTrack::decompose` (aligner/utils.rs lines
177-188): the direction-set bit mask (T = 0b001, D = 0b010, L = 0b100). -/
def BackTrack.discr : BackTrack → Nat
  | .Empty => 0
  | .T _ => 1
  | .D _ => 2
  | .L _ => 4
  | .DT _ => 3
  | .DL _ => 6
  | .TL _ => 5
  | .All _ => 7

/-- Second component of `BackTrack::decompose`: the stored score.  The
source returns `f32::NAN` for `Empty`; the NaN is modelled as `none`
(every comparison against it yields `false`, as in IEEE). -/
def BackTrack.score? : BackTrack → Option ℚ
  | .Empty => none
  | .T v => some v
  | .D v => some v
  | .L v => some v
  | .DT v => some v
  | .DL v => some v
  | .TL v => some v
  | .All v => some v

/-- Whether the direction set includes the vertical move `T` (bit 0b001). -/
def BackTrack.hasT : BackTrack → Bool
  | .T _ => true
  | .DT _ => true
  | .TL _ => true
  | .All _ => true
  | _ => false

/-- Whether the direction set includes the diagonal move `D` (bit 0b010). -/
def BackTrack.hasD : BackTrack → Bool
  | .D _ => true
  | .DT _ => true
  | .DL _ => true
  | .All _ => true
  | _ => false

/-- Whether the direction set includes the horizontal move `L` (bit 0b100). -/
def BackTrack.hasL : BackTrack → Bool
  | .L _ => true
  | .DL _ => true
  | .TL _ => true
  | .All _ => true
  | _ => false

/-- `BackTrack::nonempty_from_discriminant` (aligner/utils.rs lines 34-47);
the panic on an invalid discriminant is modelled as `none`. -/
def BackTrack.nonempty_from_discriminant (discriminant : Nat) (score : ℚ) :
    Option BackTrack :=
  match discriminant with
  | 1 => some (.T score)
  | 2 => some (.D score)
  | 4 => some (.L score)
  | 3 => some (.DT score)
  | 6 => some (.DL score)
  | 5 => some (.TL score)
  | 7 => some (.All score)
  | _ => none

/-- `BackTrack::make_backtrack` (aligner/utils.rs lines 50-60):
`max_score = reduce(f32::max)` over `[top, diagonal, left]`, then one
indicator bit per candidate equal to the maximum. -/
def BackTrack.make_backtrack (top diagonal left : ℚ) : Option (BackTrack × ℚ) :=
  let max_score := max (max top diagonal) left
  let discriminant : Nat :=
    ((if top = max_score then 1 else 0) ||| (if diagonal = max_score then 2 else 0)) |||
      (if left = max_score then 4 else 0)
  (BackTrack.nonempty_from_discriminant discriminant max_score).map
    (fun backtrack => (backtrack, max_score))

/-- The DP matrix consumed by the aligners.  The aligner crate's `matrix`
module is absent from the provided sources (only the sibling crate's
matrix.rs is); per the spec (§4.1) it is a dense `rows × cols` grid whose
in-range indexed reads/writes the solver and backtracker rely on, so it is
modelled as total functions on coordinates with explicit writes.  All
reads performed by the embedded algorithms stay inside the filled region. -/
def MatF : Type := Nat → Nat → BackTrack

/-- An indexed write `matrix[[i, j]] = v`. -/
def MatF.write (m : MatF) (i j : Nat) (v : BackTrack) : MatF :=
  fun r c => if r = i ∧ c = j then v else m r c

/-- `score <= cutoff_score` in `find_paths`: comparisons with the `Empty`
NaN score (`none` left) and with the `-∞` "no cutoff" sentinel (`none`
right) are both `false`. -/
def leCutoff (score : Option ℚ) (cutoff : Option ℚ) : Bool :=
  match score, cutoff with
  | some s, some c => s ≤ c
  | _, _ => false

/-- `BackTrack::find_paths` (aligner/utils.rs lines 105-174): one step
inspects the last coordinate of `current_path`; at a stop cell the path is
flushed to `paths` and a pending branch (if any) is resumed; otherwise the
direction set determines the appended predecessor(s), cloning the current
path onto `pending_stack` once per extra direction.  `fuel` bounds the
recursion depth; exhaustion and the `Empty`-cell panic give `none`. -/
def BackTrack.find_paths (m : MatF) (cutoff_score : Option ℚ) :
    Nat → List Coord → List (List Coord) → List (List Coord) →
    Option (List (List Coord))
  | 0, _, _, _ => none
  | fuel + 1, current_path, pending_stack, paths =>
    match current_path.getLast? with
    | none => none
    | some (row, col) =>
      let indicator := (m row col).discr
      let score := (m row col).score?
      if (row = 0 ∧ col = 0) ∨ leCutoff score cutoff_score = true then
        match pending_stack with
        | next_path :: rest =>
          BackTrack.find_paths m cutoff_score fuel next_path rest (paths ++ [current_path])
        | [] => some (paths ++ [current_path])
      else
        match indicator with
        | 1 =>
          BackTrack.find_paths m cutoff_score fuel (current_path ++ [(row - 1, col)])
            pending_stack paths
        | 2 =>
          BackTrack.find_paths m cutoff_score fuel (current_path ++ [(row - 1, col - 1)])
            pending_stack paths
        | 4 =>
          BackTrack.find_paths m cutoff_score fuel (current_path ++ [(row, col - 1)])
            pending_stack paths
        | 3 =>
          BackTrack.find_paths m cutoff_score fuel (current_path ++ [(row - 1, col - 1)])
            ((current_path ++ [(row - 1, col)]) :: pending_stack) paths
        | 6 =>
          BackTrack.find_paths m cutoff_score fuel (current_path ++ [(row - 1, col - 1)])
            ((current_path ++ [(row, col - 1)]) :: pending_stack) paths
        | 5 =>
          BackTrack.find_paths m cutoff_score fuel (current_path ++ [(row - 1, col)])
            ((current_path ++ [(row, col - 1)]) :: pending_stack) paths
        | 7 =>
          BackTrack.find_paths m cutoff_score fuel (current_path ++ [(row - 1, col - 1)])
            ((current_path ++ [(row - 1, col)]) :: (current_path ++ [(row, col - 1)]) ::
              pending_stack) paths
        | _ => none

/-- `BackTrack::backtracking` (aligner/utils.rs lines 86-103). -/
def BackTrack.backtracking (m : MatF) (init_row init_col : Nat)
    (cutoff_score : Option ℚ) (fuel : Nat) : Option (List (List Coord)) :=
  BackTrack.find_paths m cutoff_score fuel [(init_row, init_col)] [] []

/-- One iteration of the `AlignmentSequence::new` loop (aligner/utils.rs
lines 215-233): compares `backtrack_path[index]` with
`backtrack_path[index + 1]` and produces the emitted symbol pair.  The
"repeated indices" panic and out-of-range sequence indexing are modelled
as `none`. -/
def AlignmentSequence.step {α : Type} (backtrack_path : List Coord)
    (sequence_left sequence_top : List α) (index : Nat) :
    Option (Option α × Option α) := do
  let (row, col) ← backtrack_path.get? index
  let (last_row, last_col) ← backtrack_path.get? (index + 1)
  if row ≠ last_row ∧ col ≠ last_col then do
    let a ← sequence_left.get? (row - 1)
    let b ← sequence_top.get? (col - 1)
    pure (some a, some b)
  else if row ≠ last_row ∧ col = last_col then do
    let a ← sequence_left.get? (row - 1)
    pure (some a, none)
  else if row = last_row ∧ col ≠ last_col then do
    let b ← sequence_top.get? (col - 1)
    pure (none, some b)
  else
    none

/-- `AlignmentSequence::new` (aligner/utils.rs lines 204-237): walks the
index range `(0..len-1).rev()` pushing one pair per adjacent coordinate
pair.  The wrapped `pairs` vector is modelled as the list itself. -/
def AlignmentSequence.new {α : Type} (backtrack_path : List Coord)
    (sequence_left sequence_top : List α) : Option (List (Option α × Option α)) :=
  (List.range (backtrack_path.length - 1)).reverse.foldlM
    (fun pairs index =>
      (AlignmentSequence.step backtrack_path sequence_left sequence_top index).map
        (fun next => pairs ++ [next]))
    []

/-- `AffineTransversalOrder::diagonal_score` (aligner/utils.rs lines
250-276) = `NeedlemanWunsch::diagonal_score` (global_alignment.rs lines
101-117): similarity of `left[i-1]`, `top[j-1]` added to the score at
`cell(i-1, j-1)`; the `Empty` panic is `none`. -/
def AffineTransversalOrder.diagonal_score {α : Type} (scoring_schema : ScoringSchema α)
    (sequence_left sequence_top : List α) (matrix : MatF) (i j : Nat) : Option ℚ := do
  let left_alignable ← sequence_left.get? (i - 1)
  let top_alignable ← sequence_top.get? (j - 1)
  let score_ij ← scoring_schema.get_score left_alignable top_alignable
  let value ← (matrix (i - 1) j).score?.bind (fun _ => (matrix (i - 1) (j - 1)).score?)
  pure (value + (score_ij : ℚ))

/-- `AffineTransversalOrder::top_score` (aligner/utils.rs lines 278-301) =
`NeedlemanWunsch::top_score` (global_alignment.rs lines 119-137): the
vertical candidate from `cell(i-1, j)`; an extension (`get_extend`) when
the predecessor's directions include `T`, a fresh opening
(`get_function(1)`) otherwise. -/
def AffineTransversalOrder.top_score {α : Type} (scoring_schema : ScoringSchema α)
    (matrix : MatF) (i j : Nat) : Option ℚ :=
  match matrix (i - 1) j with
  | .T v => some (v - scoring_schema.get_extend)
  | .D v => (scoring_schema.get_function 1).map (fun f => v - f)
  | .L v => (scoring_schema.get_function 1).map (fun f => v - f)
  | .DL v => (scoring_schema.get_function 1).map (fun f => v - f)
  | .DT v => some (v - scoring_schema.get_extend)
  | .TL v => some (v - scoring_schema.get_extend)
  | .All v => some (v - scoring_schema.get_extend)
  | .Empty => none

/-- `AffineTransversalOrder::left_score` (aligner/utils.rs lines 303-326) =
`NeedlemanWunsch::left_score` (global_alignment.rs lines 139-157): the
horizontal candidate from `cell(i, j-1)`, symmetric in `L`. -/
def AffineTransversalOrder.left_score {α : Type} (scoring_schema : ScoringSchema α)
    (matrix : MatF) (i j : Nat) : Option ℚ :=
  match matrix i (j - 1) with
  | .L v => some (v - scoring_schema.get_extend)
  | .T v => (scoring_schema.get_function 1).map (fun f => v - f)
  | .D v => (scoring_schema.get_function 1).map (fun f => v - f)
  | .DT v => (scoring_schema.get_function 1).map (fun f => v - f)
  | .DL v => some (v - scoring_schema.get_extend)
  | .TL v => some (v - scoring_schema.get_extend)
  | .All v => some (v - scoring_schema.get_extend)
  | .Empty => none

/-- The row-major interior iteration order
`for i in 1..rows { for j in 1..cols { ... } }`. -/
def interiorIndices (rows cols : Nat) : List Coord :=
  (List.range' 1 (rows - 1)).flatMap (fun i => (List.range' 1 (cols - 1)).map (fun j => (i, j)))

-- ===================== src/src/aligner/global_alignment.rs =====================

/-- `NeedlemanWunsch::new` + `initialize` (global_alignment.rs lines 36-43,
70-81): an all-`Empty` matrix, `cell(0,0) = D 0`, column 0 set to
`T (-gapFunction(i))`, row 0 set to `L (-gapFunction(j))`. -/
def NeedlemanWunsch.initMatrix {α : Type} (scoring_schema : ScoringSchema α)
    (rows cols : Nat) : Option MatF := do
  let m : MatF := fun _ _ => .Empty
  let m := m.write 0 0 (.D 0)
  let m ← (List.range' 1 (rows - 1)).foldlM
    (fun m i => (scoring_schema.get_function i).map (fun v => m.write i 0 (.T (-v)))) m
  (List.range' 1 (cols - 1)).foldlM
    (fun m j => (scoring_schema.get_function j).map (fun v => m.write 0 j (.L (-v)))) m

/-- The body of the `solve_subproblems` loops (global_alignment.rs lines
83-93) for one interior cell. -/
def NeedlemanWunsch.solveCell {α : Type} (scoring_schema : ScoringSchema α)
    (sequence_left sequence_top : List α) (matrix : MatF) (ij : Coord) :
    Option MatF := do
  let diagonal ← AffineTransversalOrder.diagonal_score scoring_schema sequence_left
    sequence_top matrix ij.1 ij.2
  let top ← AffineTransversalOrder.top_score scoring_schema matrix ij.1 ij.2
  let left ← AffineTransversalOrder.left_score scoring_schema matrix ij.1 ij.2
  let (backtrack, _) ← BackTrack.make_backtrack top diagonal left
  pure (matrix.write ij.1 ij.2 backtrack)

/-- `initialize` followed by `solve_subproblems` for the Global variant. -/
def NeedlemanWunsch.solve {α : Type} (scoring_schema : ScoringSchema α)
    (sequence_left sequence_top : List α) : Option MatF := do
  let m ← NeedlemanWunsch.initMatrix scoring_schema
    (1 + sequence_left.length) (1 + sequence_top.length)
  (interiorIndices (1 + sequence_left.length) (1 + sequence_top.length)).foldlM
    (NeedlemanWunsch.solveCell scoring_schema sequence_left sequence_top) m

/-- The backtracking stage of `NeedlemanWunsch::run` (global_alignment.rs
lines 52-69): all paths from the bottom-right cell
`[rows - 1, cols - 1]`; the Global variant has no cutoff (`-∞`). -/
def NeedlemanWunsch.paths {α : Type} (scoring_schema : ScoringSchema α)
    (sequence_left sequence_top : List α) (fuel : Nat) :
    Option (List (List Coord)) := do
  let matrix ← NeedlemanWunsch.solve scoring_schema sequence_left sequence_top
  BackTrack.backtracking matrix sequence_left.length sequence_top.length none fuel

/-- `NeedlemanWunsch::run` (global_alignment.rs lines 52-69): one
`AlignmentSequence` is pushed per backtracked path. -/
def NeedlemanWunsch.run {α : Type} (scoring_schema : ScoringSchema α)
    (sequence_left sequence_top : List α) (fuel : Nat) :
    Option (List (List (Option α × Option α))) := do
  let all_paths ← NeedlemanWunsch.paths scoring_schema sequence_left sequence_top fuel
  all_paths.foldlM
    (fun alignments backtrack_path =>
      (AlignmentSequence.new backtrack_path sequence_left sequence_top).map
        (fun a => alignments ++ [a]))
    []

-- ===================== src/src/aligner/local_alignment.rs =====================

/-- `SmithWaterman::new` + `initialize` (local_alignment.rs lines 55-66,
127-134): every border cell carries score 0 (`D` at the origin, `T` down
column 0, `L` along row 0), interior cells start `Empty`. -/
def SmithWaterman.initMatrix : MatF := fun i j =>
  if i = 0 ∧ j = 0 then .D 0
  else if j = 0 then .T 0
  else if i = 0 then .L 0
  else .Empty

/-- `SmithWaterman::update_maximum_entries` (local_alignment.rs lines
94-103).  The initial `global_maximum` is `f32::NEG_INFINITY`, modelled as
`none`: any finite `current_maximum` compares strictly greater than it and
never equal. -/
def SmithWaterman.update_maximum_entries (global_maximum : Option ℚ)
    (maximum_indices : List Coord) (current_maximum : ℚ) (i j : Nat) :
    Option ℚ × List Coord :=
  match global_maximum with
  | none => (some current_maximum, [(i, j)])
  | some g =>
    if current_maximum > g then (some current_maximum, [(i, j)])
    else if current_maximum = g then (some g, maximum_indices ++ [(i, j)])
    else (some g, maximum_indices)

/-- Solver state of the Local variant: matrix, running maximum, indices
achieving it. -/
abbrev SWState := MatF × Option ℚ × List Coord

/-- The body of the `SmithWaterman::solve_subproblems` loops
(local_alignment.rs lines 68-92) for one interior cell: each candidate is
clamped with `.max(0.0)` before `make_backtrack`, then the running maximum
is updated and the cell written. -/
def SmithWaterman.solveCell {α : Type} (scoring_schema : ScoringSchema α)
    (sequence_left sequence_top : List α) (state : SWState) (ij : Coord) :
    Option SWState := do
  let (matrix, global_maximum, maximum_indices) := state
  let d0 ← AffineTransversalOrder.diagonal_score scoring_schema sequence_left
    sequence_top matrix ij.1 ij.2
  let diagonal := max d0 0
  let t0 ← AffineTransversalOrder.top_score scoring_schema matrix ij.1 ij.2
  let top := max t0 0
  let l0 ← AffineTransversalOrder.left_score scoring_schema matrix ij.1 ij.2
  let left := max l0 0
  let (backtrack, current_maximum) ← BackTrack.make_backtrack top diagonal left
  let gm_mi :=
    SmithWaterman.update_maximum_entries global_maximum maximum_indices
      current_maximum ij.1 ij.2
  pure (matrix.write ij.1 ij.2 backtrack, gm_mi.1, gm_mi.2)

/-- `initialize` followed by `solve_subproblems` for the Local variant,
starting from `global_maximum = -∞` and no maximum indices. -/
def SmithWaterman.solve {α : Type} (scoring_schema : ScoringSchema α)
    (sequence_left sequence_top : List α) : Option SWState :=
  (interiorIndices (1 + sequence_left.length) (1 + sequence_top.length)).foldlM
    (SmithWaterman.solveCell scoring_schema sequence_left sequence_top)
    (SmithWaterman.initMatrix, none, [])

/-- The path-collection loop of `SmithWaterman::run` (local_alignment.rs
lines 34-40): backtrack from every maximum index with cutoff score `0.0`,
appending all discovered paths. -/
def SmithWaterman.collect_paths (matrix : MatF) (maximum_indices : List Coord)
    (fuel : Nat) : Option (List (List Coord)) :=
  maximum_indices.foldlM
    (fun all_paths ij =>
      (BackTrack.backtracking matrix ij.1 ij.2 (some 0) fuel).map
        (fun path => all_paths ++ path))
    []

/-- The full list of paths the Local backtracker emits (the `all_paths`
vector of `SmithWaterman::run`). -/
def SmithWaterman.all_pathsOf {α : Type} (scoring_schema : ScoringSchema α)
    (sequence_left sequence_top : List α) (fuel : Nat) :
    Option (List (List Coord)) := do
  let (matrix, _, maximum_indices) ← SmithWaterman.solve scoring_schema
    sequence_left sequence_top
  SmithWaterman.collect_paths matrix maximum_indices fuel

/-- `all_paths.into_iter().reduce(|acc, e| if acc.len() > e.len() { acc }
else { e }).unwrap()` of `SmithWaterman::run` (local_alignment.rs lines
42-45); the `unwrap` panic on an empty list is `none`. -/
def SmithWaterman.longest (all_paths : List (List Coord)) : Option (List Coord) :=
  match all_paths with
  | [] => none
  | h :: t => some (t.foldl (fun acc e => if acc.length > e.length then acc else e) h)

/-- `SmithWaterman::run` (local_alignment.rs lines 30-53): solve, collect
the paths of every maximum index, keep a single longest path, and return
the one alignment built from it. -/
def SmithWaterman.run {α : Type} (scoring_schema : ScoringSchema α)
    (sequence_left sequence_top : List α) (fuel : Nat) :
    Option (List (List (Option α × Option α))) := do
  let all_paths ← SmithWaterman.all_pathsOf scoring_schema sequence_left
    sequence_top fuel
  let longest_path ← SmithWaterman.longest all_paths
  let alignment ← AlignmentSequence.new longest_path sequence_left sequence_top
  pure [alignment]

-- ===================== src/src/lib.rs =====================

/-- `InputErrorKind` (lib.rs lines 74-78). -/
inductive InputErrorKind
  | AlignerNotExist
  | GapModelNotExist
  | ScoringMatrixNotExist
deriving DecidableEq, Repr

/-- Failure modes of the public entry point: propagated sequence errors,
input-code errors, or a modelled panic (schema validation / solver /
backtracker aborts). -/
inductive DoError
  | seq (kind : SeqErrorKind)
  | input (kind : InputErrorKind)
  | panic
deriving DecidableEq, Repr

/-- `do_protein_alignment` (lib.rs lines 20-62): builds both proteins (the
`?` operator propagates `SeqError`s), decodes the substitution-matrix and
algorithm codes, constructs the affine scoring schema and runs the chosen
aligner.  The final `format!` rendering of the alignments is outside the
verified scope; the alignment records themselves are returned. -/
def do_protein_alignment (string_1 string_2 : String) (open_cost extend_cost : ℚ)
    (substitution_matrix algorithm : Nat) (fuel : Nat) :
    Except DoError (List (List (Option Aac × Option Aac))) := do
  let sequence_1 ← (Protein.new string_1).mapError DoError.seq
  let sequence_2 ← (Protein.new string_2).mapError DoError.seq
  let penalty_kind := PenaltyKind.Affine open_cost extend_cost
  let score_kind ←
    match substitution_matrix with
    | 1 => pure AaScoringKind.Blosum45
    | 2 => pure AaScoringKind.Blosum62
    | 3 => pure AaScoringKind.Pam160
    | _ => throw (DoError.input .ScoringMatrixNotExist)
  let scoring_schema ←
    match AaScoringSchema.mkCfg score_kind penalty_kind with
    | some cfg => pure cfg
    | none => throw DoError.panic
  match algorithm with
  | 1 =>
    match SmithWaterman.run scoring_schema sequence_1.sequence sequence_2.sequence fuel with
    | some alignments => pure alignments
    | none => throw DoError.panic
  | 2 =>
    match NeedlemanWunsch.run scoring_schema sequence_1.sequence sequence_2.sequence fuel with
    | some alignments => pure alignments
    | none => throw DoError.panic
  | _ => throw (DoError.input .AlignerNotExist)

-- ===================== verification-side definitions =====================

/-- One backtracking move between adjacent path coordinates: diagonal,
vertical or horizontal, staying inside the grid (§4.3/§4.4 of the spec). -/
def StepRel (p q : Coord) : Prop :=
  (0 < p.1 ∧ 0 < p.2 ∧ q = (p.1 - 1, p.2 - 1)) ∨
  (0 < p.1 ∧ q = (p.1 - 1, p.2)) ∨
  (0 < p.2 ∧ q = (p.1, p.2 - 1))

/-- The stopping condition of `find_paths` at coordinate `c`. -/
def StopCell (m : MatF) (cutoff : Option ℚ) (c : Coord) : Prop :=
  (c.1 = 0 ∧ c.2 = 0) ∨ leCutoff (m c.1 c.2).score? cutoff = true

/-- A partial backtracking path: non-empty, starting at `h0`, taking only
unit diagonal/vertical/horizontal steps. -/
def GoodPath (h0 : Coord) (p : List Coord) : Prop :=
  p ≠ [] ∧ p.head? = some h0 ∧ List.Chain' StepRel p

/-- A finished backtracking path: a good path whose last coordinate is a
stop cell. -/
def EmittedPath (m : MatF) (cutoff : Option ℚ) (h0 : Coord) (p : List Coord) : Prop :=
  GoodPath h0 p ∧ ∃ c, p.getLast? = some c ∧ StopCell m cutoff c

/-- Direction sanity of a filled matrix: no cell (other than the origin,
where backtracking stops) points outside the grid.  Holds for the matrices
produced by both solvers. -/
def DirWF (m : MatF) : Prop :=
  ∀ r c : Nat, ¬(r = 0 ∧ c = 0) →
    ((m r c).hasT = true → 0 < r) ∧
    ((m r c).hasD = true → 0 < r ∧ 0 < c) ∧
    ((m r c).hasL = true → 0 < c)

/-- A trivially failing scoring schema, used only as an `Option.getD`
default. -/
def ScoringSchema.dflt {α : Type} : ScoringSchema α :=
  { get_score := fun _ _ => none
    get_function := fun _ => none
    get_open := 0
    get_extend := 0 }

/-- The schema the entry point builds for BLOSUM62 with affine costs
(open = 10, extend = 1) — the configuration of the repository's own
end-to-end tests. -/
def cfgBlosum62Affine : ScoringSchema Aac :=
  (AaScoringSchema.mkCfg .Blosum62 (.Affine 10 1)).getD ScoringSchema.dflt

/-- A minimal concrete schema for witnesses: unit match score, unit gap
costs. -/
def cfgUnit : ScoringSchema Aac :=
  { get_score := fun _ _ => some 1
    get_function := fun n => if n = 0 then none else some 1
    get_open := 1
    get_extend := 1 }

/-- A small concrete matrix fixture for witnesses: `cell(0,1) = T 5` and
`cell(1,0) = D 3`. -/
def mFixture : MatF := fun i j =>
  if i = 0 ∧ j = 1 then .T 5
  else if i = 1 ∧ j = 0 then .D 3
  else .Empty

/-- Default Local solver state, used only as an `Option.getD` default. -/
def SWStateDflt : SWState := (fun _ _ => .Empty, none, [])

-- ===================== generic helper lemmas =====================

/-- An invariant preserved by every successful step of an `Option`-valued
left fold is preserved by the whole fold. -/
theorem foldlM_option_inv {σ β : Type _} (f : σ → β → Option σ) (P : σ → Prop) :
    ∀ (L : List β),
      (∀ s x s', x ∈ L → f s x = some s' → P s → P s') →
      ∀ (s s' : σ), L.foldlM f s = some s' → P s → P s' := by
  intro L
  induction L with
  | nil =>
    intro _ s s' h hP
    simp only [List.foldlM_nil] at h
    cases h
    exact hP
  | cons x xs ih =>
    intro hstep s s' h hP
    rw [List.foldlM_cons] at h
    cases hf : f s x with
    | none => rw [hf] at h; simp at h
    | some s1 =>
      rw [hf] at h
      exact ih (fun s x' s' hx' => hstep s x' s' (List.mem_cons_of_mem _ hx')) s1 s' h
        (hstep s x s1 (List.mem_cons_self x xs) hf hP)

/-- A fold appending exactly one produced element per input element grows
the accumulator by the input length. -/
theorem foldlM_map_append_length {β γ : Type _} (g : β → Option γ) :
    ∀ (L : List β) (acc out : List γ),
      L.foldlM (fun acc' x => (g x).map (fun y => acc' ++ [y])) acc = some out →
      out.length = acc.length + L.length := by
  intro L
  induction L with
  | nil =>
    intro acc out h
    simp only [List.foldlM_nil] at h
    cases h
    simp
  | cons x xs ih =>
    intro acc out h
    rw [List.foldlM_cons] at h
    cases hg : g x with
    | none => rw [hg] at h; simp at h
    | some y =>
      rw [hg] at h
      have := ih (acc ++ [y]) out h
      simp only [List.length_append, List.length_cons, List.length_nil] at this ⊢
      omega

/-- Every element of the output of such a fold is either an original
accumulator element or the successful image of an input element. -/
theorem foldlM_map_append_mem {β γ : Type _} (g : β → Option γ) :
    ∀ (L : List β) (acc out : List γ),
      L.foldlM (fun acc' x => (g x).map (fun y => acc' ++ [y])) acc = some out →
      ∀ y ∈ out, y ∈ acc ∨ ∃ x ∈ L, g x = some y := by
  intro L
  induction L with
  | nil =>
    intro acc out h y hy
    simp only [List.foldlM_nil] at h
    cases h
    exact Or.inl hy
  | cons x xs ih =>
    intro acc out h y hy
    rw [List.foldlM_cons] at h
    cases hg : g x with
    | none => rw [hg] at h; simp at h
    | some z =>
      rw [hg] at h
      rcases ih (acc ++ [z]) out h y hy with hacc | ⟨x', hx', hgx'⟩
      · rcases List.mem_append.mp hacc with h' | h'
        · exact Or.inl h'
        · simp only [List.mem_singleton] at h'
          exact Or.inr ⟨x, List.mem_cons_self x xs, by rw [hg, h']⟩
      · exact Or.inr ⟨x', List.mem_cons_of_mem _ hx', hgx'⟩

/-- Like `foldlM_map_append_mem` for folds appending a produced *list* per
input element. -/
theorem foldlM_append_list_mem {β γ : Type _} (g : β → Option (List γ)) :
    ∀ (L : List β) (acc out : List γ),
      L.foldlM (fun acc' x => (g x).map (fun ys => acc' ++ ys)) acc = some out →
      ∀ y ∈ out, y ∈ acc ∨ ∃ x ∈ L, ∃ ys, g x = some ys ∧ y ∈ ys := by
  intro L
  induction L with
  | nil =>
    intro acc out h y hy
    simp only [List.foldlM_nil] at h
    cases h
    exact Or.inl hy
  | cons x xs ih =>
    intro acc out h y hy
    rw [List.foldlM_cons] at h
    cases hg : g x with
    | none => rw [hg] at h; simp at h
    | some zs =>
      rw [hg] at h
      rcases ih (acc ++ zs) out h y hy with hacc | ⟨x', hx', zs', hgx', hyzs'⟩
      · rcases List.mem_append.mp hacc with h' | h'
        · exact Or.inl h'
        · exact Or.inr ⟨x, List.mem_cons_self x xs, zs, hg, h'⟩
      · exact Or.inr ⟨x', List.mem_cons_of_mem _ hx', zs', hgx', hyzs'⟩

/-- The path selected by `SmithWaterman::longest` is one of the collected
paths. -/
theorem SmithWaterman.longest_mem (all_paths : List (List Coord)) (p : List Coord)
    (h : SmithWaterman.longest all_paths = some p) : p ∈ all_paths := by
  have key : ∀ (t : List (List Coord)) (acc : List Coord),
      t.foldl (fun acc e => if acc.length > e.length then acc else e) acc ∈ acc :: t := by
    intro t
    induction t with
    | nil => intro acc; simp [List.foldl]
    | cons e t ih =>
      intro acc
      rw [List.foldl_cons]
      rcases List.mem_cons.mp (ih (if acc.length > e.length then acc else e)) with h' | h'
      · rw [h']
        by_cases hc : acc.length > e.length
        · simp only [if_pos hc]
          exact List.mem_cons_self _ _
        · simp only [if_neg hc]
          exact List.mem_cons_of_mem _ (List.mem_cons_self _ _)
      · exact List.mem_cons_of_mem _ (List.mem_cons_of_mem _ h')
  unfold SmithWaterman.longest at h
  cases all_paths with
  | nil => simp at h
  | cons hd t =>
    simp only [Option.some.injEq] at h
    rw [← h]
    exact key t hd

/-- Writing a cell changes exactly that cell. -/
theorem MatF.write_self (m : MatF) (i j : Nat) (v : BackTrack) :
    m.write i j v i j = v := by
  simp [MatF.write]

/-- See `MatF.write_self`. -/
theorem MatF.write_ne (m : MatF) (i j r c : Nat) (v : BackTrack)
    (h : ¬(r = i ∧ c = j)) : m.write i j v r c = m r c := by
  simp [MatF.write, h]

/-- Membership in the interior iteration order gives the loop bounds. -/
theorem mem_interiorIndices {rows cols : Nat} {ij : Coord}
    (h : ij ∈ interiorIndices rows cols) :
    1 ≤ ij.1 ∧ ij.1 ≤ rows - 1 ∧ 1 ≤ ij.2 ∧ ij.2 ≤ cols - 1 := by
  simp only [interiorIndices, List.mem_flatMap, List.mem_map] at h
  obtain ⟨i, hi, j, hj, hij⟩ := h
  rw [List.mem_range'_1] at hi hj
  rw [← hij]
  omega

/-- Full characterisation of `make_backtrack`: it always succeeds, returns
the maximum of the three candidates, and the direction set is exactly the
set of candidates attaining that maximum. -/
theorem BackTrack.make_backtrack_spec (top diagonal left : ℚ) :
    ∃ backtrack, BackTrack.make_backtrack top diagonal left =
        some (backtrack, max (max top diagonal) left) ∧
      backtrack ≠ .Empty ∧ backtrack.discr ≠ 0 ∧
      backtrack.score? = some (max (max top diagonal) left) ∧
      (backtrack.hasT = true ↔ top = max (max top diagonal) left) ∧
      (backtrack.hasD = true ↔ diagonal = max (max top diagonal) left) ∧
      (backtrack.hasL = true ↔ left = max (max top diagonal) left) := by
  have hmem : top = max (max top diagonal) left ∨ diagonal = max (max top diagonal) left ∨
      left = max (max top diagonal) left := by
    rcases max_choice (max top diagonal) left with h | h
    · rcases max_choice top diagonal with h' | h'
      · exact Or.inl (h.trans h').symm
      · exact Or.inr (Or.inl (h.trans h').symm)
    · exact Or.inr (Or.inr h.symm)
  by_cases h1 : top = max (max top diagonal) left <;>
    by_cases h2 : diagonal = max (max top diagonal) left <;>
      by_cases h3 : left = max (max top diagonal) left
  · refine ⟨.All (max (max top diagonal) left), ?_, by simp, by simp [BackTrack.discr],
      by simp [BackTrack.score?], iff_of_true rfl h1,
      iff_of_true rfl h2, iff_of_true rfl h3⟩
    simp only [BackTrack.make_backtrack, if_pos h1, if_pos h2, if_pos h3]
    rfl
  · refine ⟨.DT (max (max top diagonal) left), ?_, by simp, by simp [BackTrack.discr],
      by simp [BackTrack.score?], iff_of_true rfl h1,
      iff_of_true rfl h2, iff_of_false (by simp [BackTrack.hasL]) h3⟩
    simp only [BackTrack.make_backtrack, if_pos h1, if_pos h2, if_neg h3]
    rfl
  · refine ⟨.TL (max (max top diagonal) left), ?_, by simp, by simp [BackTrack.discr],
      by simp [BackTrack.score?], iff_of_true rfl h1,
      iff_of_false (by simp [BackTrack.hasD]) h2, iff_of_true rfl h3⟩
    simp only [BackTrack.make_backtrack, if_pos h1, if_neg h2, if_pos h3]
    rfl
  · refine ⟨.T (max (max top diagonal) left), ?_, by simp, by simp [BackTrack.discr],
      by simp [BackTrack.score?], iff_of_true rfl h1,
      iff_of_false (by simp [BackTrack.hasD]) h2, iff_of_false (by simp [BackTrack.hasL]) h3⟩
    simp only [BackTrack.make_backtrack, if_pos h1, if_neg h2, if_neg h3]
    rfl
  · refine ⟨.DL (max (max top diagonal) left), ?_, by simp, by simp [BackTrack.discr],
      by simp [BackTrack.score?], iff_of_false (by simp [BackTrack.hasT]) h1,
      iff_of_true rfl h2, iff_of_true rfl h3⟩
    simp only [BackTrack.make_backtrack, if_neg h1, if_pos h2, if_pos h3]
    rfl
  · refine ⟨.D (max (max top diagonal) left), ?_, by simp, by simp [BackTrack.discr],
      by simp [BackTrack.score?], iff_of_false (by simp [BackTrack.hasT]) h1,
      iff_of_true rfl h2, iff_of_false (by simp [BackTrack.hasL]) h3⟩
    simp only [BackTrack.make_backtrack, if_neg h1, if_pos h2, if_neg h3]
    rfl
  · refine ⟨.L (max (max top diagonal) left), ?_, by simp, by simp [BackTrack.discr],
      by simp [BackTrack.score?], iff_of_false (by simp [BackTrack.hasT]) h1,
      iff_of_false (by simp [BackTrack.hasD]) h2, iff_of_true rfl h3⟩
    simp only [BackTrack.make_backtrack, if_neg h1, if_neg h2, if_pos h3]
    rfl
  · exact absurd hmem (by tauto)

/-- A successful `make_backtrack` pins down its score and direction set. -/
theorem BackTrack.make_backtrack_eq_some (top diagonal left : ℚ)
    (backtrack : BackTrack) (score : ℚ)
    (h : BackTrack.make_backtrack top diagonal left = some (backtrack, score)) :
    score = max (max top diagonal) left ∧ backtrack ≠ .Empty ∧
      backtrack.score? = some score := by
  obtain ⟨bt, heq, hne, _, hscore, _, _, _⟩ := BackTrack.make_backtrack_spec top diagonal left
  rw [heq] at h
  have h' := Option.some.inj h
  have hb : bt = backtrack := congrArg Prod.fst h'
  have hs : max (max top diagonal) left = score := congrArg Prod.snd h'
  subst hb
  exact ⟨hs.symm, hne, by rw [hscore, hs]⟩

-- ===================== claim theorems =====================

/-- C1: for an affine scoring schema built with open cost 10 and extend
cost 1, the schema accessor `get_extend` returns the open cost 10 — not
the extend parameter 1 reported by the penalty's own `extend()` accessor.
This documents the defect of `AaScoringSchema::get_extend`
(scoring_schema/mod.rs lines 78-80), which returns `self.penalty.open()`. -/
theorem C1_get_extend_returns_open_cost :
    (AaScoringSchema.mkCfg .Blosum62 (.Affine 10 1)).map (fun cfg => cfg.get_extend) =
      some 10 ∧
    Affine.extend { open_cost := 10, extend_cost := 1 } = 1 ∧
    (AaScoringSchema.mkCfg .Blosum62 (.Affine 10 1)).map (fun cfg => cfg.get_extend) ≠
      some (Affine.extend { open_cost := 10, extend_cost := 1 }) := by
  refine ⟨by decide, rfl, by decide⟩

/-- C6: `make_backtrack` returns the maximum of the three candidate scores
together with a direction set that contains exactly the candidates whose
value equals that maximum (ties included, nothing else). -/
theorem C6_make_backtrack_argmax_set (top diagonal left : ℚ) :
    ∃ backtrack, BackTrack.make_backtrack top diagonal left =
        some (backtrack, max (max top diagonal) left) ∧
      (backtrack.hasT = true ↔ top = max (max top diagonal) left) ∧
      (backtrack.hasD = true ↔ diagonal = max (max top diagonal) left) ∧
      (backtrack.hasL = true ↔ left = max (max top diagonal) left) := by
  obtain ⟨bt, heq, _, _, _, hT, hD, hL⟩ := BackTrack.make_backtrack_spec top diagonal left
  exact ⟨bt, heq, hT, hD, hL⟩

/-- C10: for every (non-NaN, here rational) triple of candidate scores the
discriminant built by `make_backtrack` is non-zero, so
`nonempty_from_discriminant` never reaches its panic branch and the
returned direction set is non-empty. -/
theorem C10_make_backtrack_never_panics (top diagonal left : ℚ) :
    ∃ backtrack score,
      BackTrack.make_backtrack top diagonal left = some (backtrack, score) ∧
      backtrack ≠ .Empty ∧ backtrack.discr ≠ 0 := by
  obtain ⟨bt, heq, hne, hd, _, _, _, _⟩ := BackTrack.make_backtrack_spec top diagonal left
  exact ⟨bt, max (max top diagonal) left, heq, hne, hd⟩

/-- C8: `Matrix::get` and `Matrix::get_mut` return the typed
`OutOfDimension` failure whenever `row ≥ rows` or `col ≥ cols`. -/
theorem C8_get_out_of_dimension {α : Type} (m : Matrix' α) (row col : Nat)
    (h : row ≥ m.rows ∨ col ≥ m.cols) :
    m.get row col = .error (.OutOfDimension (row, col) (m.rows, m.cols)) ∧
    m.get_mut row col = .error (.OutOfDimension (row, col) (m.rows, m.cols)) := by
  constructor <;>
    simp only [Matrix'.get, Matrix'.get_mut, Matrix'.map_2dim_to_1dim_index, if_pos h]

/-- Witness for C8 on a concrete 3×3 matrix and the out-of-range indices
(3,0) and (0,5). -/
theorem C8_witness :
    ((3 ≥ (Matrix'.full (0 : Nat) 3 3).rows ∨ 0 ≥ (Matrix'.full (0 : Nat) 3 3).cols) ∧
      (Matrix'.full (0 : Nat) 3 3).get 3 0 = .error (.OutOfDimension (3, 0) (3, 3)) ∧
      (Matrix'.full (0 : Nat) 3 3).get_mut 3 0 =
        .error (.OutOfDimension (3, 0) (3, 3))) ∧
    ((0 ≥ (Matrix'.full (0 : Nat) 3 3).rows ∨ 5 ≥ (Matrix'.full (0 : Nat) 3 3).cols) ∧
      (Matrix'.full (0 : Nat) 3 3).get 0 5 = .error (.OutOfDimension (0, 5) (3, 3)) ∧
      (Matrix'.full (0 : Nat) 3 3).get_mut 0 5 =
        .error (.OutOfDimension (0, 5) (3, 3))) :=
  ⟨⟨Or.inl (by decide),
    C8_get_out_of_dimension (Matrix'.full (0 : Nat) 3 3) 3 0 (Or.inl (by decide))⟩,
   ⟨Or.inr (by decide),
    C8_get_out_of_dimension (Matrix'.full (0 : Nat) 3 3) 0 5 (Or.inr (by decide))⟩⟩

/-- C9: the substitution lookup is symmetric for every ordered code pair
and every table, because `search` sorts the pair before building the
pairing-function key. -/
theorem C9_search_symmetric (schema : List (Nat × Int)) (code_1 code_2 : Aac) :
    AaSymTable.search schema code_1 code_2 = AaSymTable.search schema code_2 code_1 := by
  have h : Aac.sortPair code_1 code_2 = Aac.sortPair code_2 code_1 := by
    revert code_1 code_2
    decide
  simp only [AaSymTable.search, h]

/-- C2: when the predecessor cells are filled, the vertical candidate from
`cell(i-1, j)` prices the gap with `get_extend` exactly when the
predecessor's direction set includes the vertical move `T` (variants T,
DT, TL, All) and with `get_function(1)` otherwise (variants D, L, DL); the
horizontal candidate obeys the symmetric rule on `cell(i, j-1)` and `L`. -/
theorem C2_affine_gap_pricing {α : Type} (scoring_schema : ScoringSchema α)
    (matrix : MatF) (i j : Nat)
    (ht : matrix (i - 1) j ≠ .Empty) (hl : matrix i (j - 1) ≠ .Empty) :
    (∃ v, (matrix (i - 1) j).score? = some v ∧
      AffineTransversalOrder.top_score scoring_schema matrix i j =
        (if (matrix (i - 1) j).hasT = true then some (v - scoring_schema.get_extend)
         else (scoring_schema.get_function 1).map (fun f => v - f))) ∧
    (∃ v, (matrix i (j - 1)).score? = some v ∧
      AffineTransversalOrder.left_score scoring_schema matrix i j =
        (if (matrix i (j - 1)).hasL = true then some (v - scoring_schema.get_extend)
         else (scoring_schema.get_function 1).map (fun f => v - f))) := by
  constructor
  · cases hc : matrix (i - 1) j with
    | Empty => exact absurd hc ht
    | T v =>
      exact ⟨v, by simp [hc, BackTrack.score?],
        by simp [AffineTransversalOrder.top_score, hc, BackTrack.hasT]⟩
    | D v =>
      exact ⟨v, by simp [hc, BackTrack.score?],
        by simp [AffineTransversalOrder.top_score, hc, BackTrack.hasT]⟩
    | L v =>
      exact ⟨v, by simp [hc, BackTrack.score?],
        by simp [AffineTransversalOrder.top_score, hc, BackTrack.hasT]⟩
    | DT v =>
      exact ⟨v, by simp [hc, BackTrack.score?],
        by simp [AffineTransversalOrder.top_score, hc, BackTrack.hasT]⟩
    | DL v =>
      exact ⟨v, by simp [hc, BackTrack.score?],
        by simp [AffineTransversalOrder.top_score, hc, BackTrack.hasT]⟩
    | TL v =>
      exact ⟨v, by simp [hc, BackTrack.score?],
        by simp [AffineTransversalOrder.top_score, hc, BackTrack.hasT]⟩
    | All v =>
      exact ⟨v, by simp [hc, BackTrack.score?],
        by simp [AffineTransversalOrder.top_score, hc, BackTrack.hasT]⟩
  · cases hc : matrix i (j - 1) with
    | Empty => exact absurd hc hl
    | T v =>
      exact ⟨v, by simp [hc, BackTrack.score?],
        by simp [AffineTransversalOrder.left_score, hc, BackTrack.hasL]⟩
    | D v =>
      exact ⟨v, by simp [hc, BackTrack.score?],
        by simp [AffineTransversalOrder.left_score, hc, BackTrack.hasL]⟩
    | L v =>
      exact ⟨v, by simp [hc, BackTrack.score?],
        by simp [AffineTransversalOrder.left_score, hc, BackTrack.hasL]⟩
    | DT v =>
      exact ⟨v, by simp [hc, BackTrack.score?],
        by simp [AffineTransversalOrder.left_score, hc, BackTrack.hasL]⟩
    | DL v =>
      exact ⟨v, by simp [hc, BackTrack.score?],
        by simp [AffineTransversalOrder.left_score, hc, BackTrack.hasL]⟩
    | TL v =>
      exact ⟨v, by simp [hc, BackTrack.score?],
        by simp [AffineTransversalOrder.left_score, hc, BackTrack.hasL]⟩
    | All v =>
      exact ⟨v, by simp [hc, BackTrack.score?],
        by simp [AffineTransversalOrder.left_score, hc, BackTrack.hasL]⟩

/-- Witness for C2 at the fixture matrix (`cell(0,1) = T 5`,
`cell(1,0) = D 3`) and cell (1,1) with the unit schema. -/
theorem C2_witness :
    (mFixture 0 1 ≠ .Empty ∧ mFixture 1 0 ≠ .Empty) ∧
    ((∃ v, (mFixture 0 1).score? = some v ∧
      AffineTransversalOrder.top_score cfgUnit mFixture 1 1 =
        (if (mFixture 0 1).hasT = true then some (v - cfgUnit.get_extend)
         else (cfgUnit.get_function 1).map (fun f => v - f))) ∧
     (∃ v, (mFixture 1 0).score? = some v ∧
      AffineTransversalOrder.left_score cfgUnit mFixture 1 1 =
        (if (mFixture 1 0).hasL = true then some (v - cfgUnit.get_extend)
         else (cfgUnit.get_function 1).map (fun f => v - f)))) :=
  ⟨⟨by decide, by decide⟩,
    C2_affine_gap_pricing cfgUnit mFixture 1 1 (by decide) (by decide)⟩

/-- C4 (corrected): aligning the empty sequence through the public entry
point does not succeed — `Protein::new` rejects the empty string with the
`EmptyString` error, which `do_protein_alignment` propagates for every
choice of the remaining arguments. -/
theorem C4_empty_sequence_fails_at_construction (string_2 : String)
    (open_cost extend_cost : ℚ) (substitution_matrix algorithm fuel : Nat) :
    do_protein_alignment "" string_2 open_cost extend_cost substitution_matrix
        algorithm fuel = .error (.seq .EmptyString) := rfl

/-- C4 counterexample: with `S = ""`, `T = "A"`, affine costs (10, 1),
BLOSUM62 and the Global aligner, the run fails at sequence construction
instead of yielding the single-gap alignment the claim asserts. -/
theorem C4_counterexample :
    do_protein_alignment "" "A" 10 1 2 2 100 = .error (.seq .EmptyString) ∧
    Protein.new "" = .error .EmptyString := ⟨rfl, rfl⟩

/-- C3 (corrected): the Global run emits one Alignment per coordinate path
produced by the backtracker, but the Local run always returns exactly one
Alignment — the one built from a single longest path — regardless of how
many tied optimal paths the backtracker emitted. -/
theorem C3_run_output_shape :
    (∀ {α : Type} (cfg : ScoringSchema α) (sl st : List α) (fuel : Nat)
        (ps : List (List Coord)) (out : List (List (Option α × Option α))),
      NeedlemanWunsch.paths cfg sl st fuel = some ps →
      NeedlemanWunsch.run cfg sl st fuel = some out → out.length = ps.length) ∧
    (∀ {α : Type} (cfg : ScoringSchema α) (sl st : List α) (fuel : Nat)
        (out : List (List (Option α × Option α))),
      SmithWaterman.run cfg sl st fuel = some out → out.length = 1) := by
  constructor
  · intro α cfg sl st fuel ps out hps hrun
    unfold NeedlemanWunsch.run at hrun
    rw [hps] at hrun
    have := foldlM_map_append_length
      (fun backtrack_path => AlignmentSequence.new backtrack_path sl st) ps [] out hrun
    simpa using this
  · intro α cfg sl st fuel out hrun
    unfold SmithWaterman.run at hrun
    obtain ⟨aps, h1, hrun⟩ := Option.bind_eq_some.mp hrun
    obtain ⟨lp, h2, hrun⟩ := Option.bind_eq_some.mp hrun
    obtain ⟨al, h3, hrun⟩ := Option.bind_eq_some.mp hrun
    cases hrun
    rfl

attribute [local semireducible] Rat.add Rat.sub Rat.mul in
/-- C3 counterexample: aligning `S = [A]`, `T = [A, A]` locally under
BLOSUM62 / affine (10, 1), the backtracker emits two tied optimal paths
(score 4 each), yet `SmithWaterman::run` returns a single Alignment. -/
theorem C3_counterexample :
    (SmithWaterman.all_pathsOf cfgBlosum62Affine [Aac.A] [Aac.A, Aac.A] 100).map
        List.length = some 2 ∧
    (SmithWaterman.run cfgBlosum62Affine [Aac.A] [Aac.A, Aac.A] 100).map
        List.length = some 1 := by
  constructor <;> decide

attribute [local semireducible] Rat.add Rat.sub Rat.mul in
/-- Witness for C3: the concrete Global and Local runs on `[A]` vs
`[A, A]` under BLOSUM62 / affine (10, 1). -/
theorem C3_witness :
    (NeedlemanWunsch.paths cfgBlosum62Affine [Aac.A] [Aac.A, Aac.A] 100 =
        some [[(1, 2), (0, 1), (0, 0)], [(1, 2), (1, 1), (0, 0)]] ∧
      NeedlemanWunsch.run cfgBlosum62Affine [Aac.A] [Aac.A, Aac.A] 100 =
        some [[(none, some Aac.A), (some Aac.A, some Aac.A)],
          [(some Aac.A, some Aac.A), (none, some Aac.A)]] ∧
      ([[(none, some Aac.A), (some Aac.A, some Aac.A)],
          [(some Aac.A, some Aac.A), (none, some Aac.A)]] :
        List (List (Option Aac × Option Aac))).length =
        ([[(1, 2), (0, 1), (0, 0)], [(1, 2), (1, 1), (0, 0)]] :
          List (List Coord)).length) ∧
    (SmithWaterman.run cfgBlosum62Affine [Aac.A] [Aac.A, Aac.A] 100 =
        some [[(some Aac.A, some Aac.A)]] ∧
      ([[(some Aac.A, some Aac.A)]] : List (List (Option Aac × Option Aac))).length = 1) :=
  ⟨⟨by decide, by decide,
    C3_run_output_shape.1 cfgBlosum62Affine [Aac.A] [Aac.A, Aac.A] 100 _ _
      (by decide) (by decide)⟩,
   ⟨by decide,
    C3_run_output_shape.2 cfgBlosum62Affine [Aac.A] [Aac.A, Aac.A] 100 _ (by decide)⟩⟩

/-- Anatomy of one successful Local solver step: some clamped candidate
triple went through `make_backtrack`, the cell was written with the result
and the running maximum updated. -/
theorem SmithWaterman.sw_solveCell_shape {α : Type} (cfg : ScoringSchema α)
    (sl st : List α) (s : SWState) (ij : Coord) (s' : SWState)
    (h : SmithWaterman.solveCell cfg sl st s ij = some s') :
    ∃ d0 t0 l0 backtrack current_maximum,
      BackTrack.make_backtrack (max t0 0) (max d0 0) (max l0 0) =
        some (backtrack, current_maximum) ∧
      s' = (s.1.write ij.1 ij.2 backtrack,
        (SmithWaterman.update_maximum_entries s.2.1 s.2.2 current_maximum ij.1 ij.2).1,
        (SmithWaterman.update_maximum_entries s.2.1 s.2.2 current_maximum ij.1 ij.2).2) := by
  obtain ⟨matrix, global_maximum, maximum_indices⟩ := s
  unfold SmithWaterman.solveCell at h
  obtain ⟨d0, hd, h⟩ := Option.bind_eq_some.mp h
  obtain ⟨t0, ht, h⟩ := Option.bind_eq_some.mp h
  obtain ⟨l0, hl, h⟩ := Option.bind_eq_some.mp h
  obtain ⟨btcm, hmb, h⟩ := Option.bind_eq_some.mp h
  obtain ⟨backtrack, current_maximum⟩ := btcm
  cases h
  exact ⟨d0, t0, l0, backtrack, current_maximum, hmb, rfl⟩

/-- The score attached to a successful Local step is non-negative: it is
the maximum of three candidates already clamped at zero. -/
theorem SmithWaterman.step_score_nonneg (d0 t0 l0 : ℚ) (backtrack : BackTrack)
    (current_maximum : ℚ)
    (h : BackTrack.make_backtrack (max t0 0) (max d0 0) (max l0 0) =
      some (backtrack, current_maximum)) :
    0 ≤ current_maximum ∧ backtrack.score? = some current_maximum := by
  obtain ⟨hcm, _, hscore⟩ :=
    BackTrack.make_backtrack_eq_some (max t0 0) (max d0 0) (max l0 0) backtrack
      current_maximum h
  refine ⟨?_, hscore⟩
  rw [hcm]
  calc (0 : ℚ) ≤ max l0 0 := le_max_right l0 0
    _ ≤ max (max (max t0 0) (max d0 0)) (max l0 0) := le_max_right _ _

/-- The interior iteration order is non-empty as soon as both sequences
are. -/
theorem interiorIndices_ne_nil {rows cols : Nat} (hr : 2 ≤ rows) (hc : 2 ≤ cols) :
    interiorIndices rows cols ≠ [] := by
  intro h
  have hmem : ((1, 1) : Coord) ∈ interiorIndices rows cols :=
    List.mem_flatMap.mpr ⟨1, by rw [List.mem_range'_1]; omega,
      List.mem_map.mpr ⟨1, by rw [List.mem_range'_1]; omega, rfl⟩⟩
  rw [h] at hmem
  exact absurd hmem (List.not_mem_nil _)

/-- C7: in the Local (Smith-Waterman) solver every score present in the
filled matrix is ≥ 0 (each candidate is clamped at zero before the cell is
written), and for non-empty inputs the tracked running maximum — the
optimal local alignment score — is a non-negative rational. -/
theorem C7_local_scores_nonneg {α : Type} (cfg : ScoringSchema α) (sl st : List α)
    (h : (SmithWaterman.solve cfg sl st).isSome = true)
    (hsl : sl ≠ []) (hst : st ≠ []) :
    (∀ i j q, ((((SmithWaterman.solve cfg sl st).getD SWStateDflt).1) i j).score? =
        some q → 0 ≤ q) ∧
    (∃ q, ((SmithWaterman.solve cfg sl st).getD SWStateDflt).2.1 = some q ∧ 0 ≤ q) := by
  obtain ⟨res, hres⟩ := Option.isSome_iff_exists.mp h
  rw [hres]
  simp only [Option.getD_some]
  constructor
  · -- every stored score is non-negative
    have hstep : ∀ (s : SWState) (x : Coord) (s' : SWState),
        x ∈ interiorIndices (1 + sl.length) (1 + st.length) →
        SmithWaterman.solveCell cfg sl st s x = some s' →
        (∀ i j q, (s.1 i j).score? = some q → 0 ≤ q) →
        (∀ i j q, (s'.1 i j).score? = some q → 0 ≤ q) := by
      intro s x s' _ hcell hP i j q hq
      obtain ⟨d0, t0, l0, bt, cm, hmb, hs'⟩ :=
        SmithWaterman.sw_solveCell_shape cfg sl st s x s' hcell
      obtain ⟨hcm, hscore⟩ := SmithWaterman.step_score_nonneg d0 t0 l0 bt cm hmb
      rw [hs'] at hq
      dsimp only at hq
      by_cases hc : i = x.1 ∧ j = x.2
      · obtain ⟨h1, h2⟩ := hc
        subst h1; subst h2
        rw [MatF.write_self] at hq
        rw [hscore] at hq
        cases hq
        exact hcm
      · rw [MatF.write_ne _ _ _ _ _ _ hc] at hq
        exact hP i j q hq
    have hbase : ∀ i j q, (SmithWaterman.initMatrix i j).score? = some q → 0 ≤ q := by
      intro i j q hq
      unfold SmithWaterman.initMatrix at hq
      split_ifs at hq
      · simp only [BackTrack.score?, Option.some.injEq] at hq
        exact hq.le
      · simp only [BackTrack.score?, Option.some.injEq] at hq
        exact hq.le
      · simp only [BackTrack.score?, Option.some.injEq] at hq
        exact hq.le
      · simp [BackTrack.score?] at hq
    exact foldlM_option_inv (SmithWaterman.solveCell cfg sl st) _
      (interiorIndices (1 + sl.length) (1 + st.length)) hstep
      (SmithWaterman.initMatrix, none, []) res hres hbase
  · -- the running maximum is attained and non-negative
    have hr2 : 2 ≤ 1 + sl.length := by
      have := List.length_pos.mpr hsl; omega
    have hc2 : 2 ≤ 1 + st.length := by
      have := List.length_pos.mpr hst; omega
    unfold SmithWaterman.solve at hres
    cases hI : interiorIndices (1 + sl.length) (1 + st.length) with
    | nil => exact absurd hI (interiorIndices_ne_nil hr2 hc2)
    | cons x rest =>
      rw [hI] at hres
      rw [List.foldlM_cons] at hres
      cases hf : SmithWaterman.solveCell cfg sl st (SmithWaterman.initMatrix, none, []) x with
      | none => rw [hf] at hres; simp at hres
      | some s1 =>
        rw [hf] at hres
        have hQ1 : ∃ q, s1.2.1 = some q ∧ 0 ≤ q := by
          obtain ⟨d0, t0, l0, bt, cm, hmb, hs1⟩ :=
            SmithWaterman.sw_solveCell_shape cfg sl st _ x s1 hf
          obtain ⟨hcm, _⟩ := SmithWaterman.step_score_nonneg d0 t0 l0 bt cm hmb
          rw [hs1]
          exact ⟨cm, rfl, hcm⟩
        have hstep : ∀ (s : SWState) (y : Coord) (s' : SWState), y ∈ rest →
            SmithWaterman.solveCell cfg sl st s y = some s' →
            (∃ q, s.2.1 = some q ∧ 0 ≤ q) → (∃ q, s'.2.1 = some q ∧ 0 ≤ q) := by
          intro s y s' _ hcell ⟨g, hg, hg0⟩
          obtain ⟨d0, t0, l0, bt, cm, hmb, hs'⟩ :=
            SmithWaterman.sw_solveCell_shape cfg sl st s y s' hcell
          obtain ⟨hcm, _⟩ := SmithWaterman.step_score_nonneg d0 t0 l0 bt cm hmb
          rw [hs']
          dsimp only
          rw [hg]
          simp only [SmithWaterman.update_maximum_entries]
          split_ifs with hgt heq
          · exact ⟨cm, rfl, hcm⟩
          · exact ⟨g, rfl, hg0⟩
          · exact ⟨g, rfl, hg0⟩
        exact foldlM_option_inv (SmithWaterman.solveCell cfg sl st) _ rest hstep s1 res
          hres hQ1

attribute [local semireducible] Rat.add Rat.sub Rat.mul in
/-- Witness for C7: the concrete Local solve of `[A]` against `[A]` under
the unit schema. -/
theorem C7_witness :
    ((SmithWaterman.solve cfgUnit [Aac.A] [Aac.A]).isSome = true ∧
      [Aac.A] ≠ ([] : List Aac) ∧ [Aac.A] ≠ ([] : List Aac)) ∧
    ((∀ i j q, ((((SmithWaterman.solve cfgUnit [Aac.A] [Aac.A]).getD SWStateDflt).1) i j).score? =
        some q → 0 ≤ q) ∧
      (∃ q, ((SmithWaterman.solve cfgUnit [Aac.A] [Aac.A]).getD SWStateDflt).2.1 =
        some q ∧ 0 ≤ q)) :=
  ⟨⟨by decide, by decide, by decide⟩,
    C7_local_scores_nonneg cfgUnit [Aac.A] [Aac.A] (by decide) (by decide) (by decide)⟩

/-- Appending a valid step to a good path keeps it good. -/
theorem GoodPath.extend {h0 : Coord} {p : List Coord} (hp : GoodPath h0 p)
    {last q : Coord} (hlast : p.getLast? = some last) (hstep : StepRel last q) :
    GoodPath h0 (p ++ [q]) := by
  obtain ⟨hne, hhead, hchain⟩ := hp
  refine ⟨by simp, ?_, ?_⟩
  · cases p with
    | nil => exact absurd rfl hne
    | cons a t => simpa using hhead
  · rw [List.chain'_append]
    refine ⟨hchain, List.chain'_singleton q, ?_⟩
    intro x hx y hy
    have hx' : x = last := by
      rw [hlast] at hx
      exact (Option.mem_some_iff.mp hx).symm
    have hy' : y = q := by
      simp only [List.head?_cons, Option.mem_def, Option.some.injEq] at hy
      exact hy.symm
    rw [hx', hy']
    exact hstep

/-- One-step unfolding of `find_paths` at positive fuel. -/
theorem BackTrack.find_paths_succ (m : MatF) (cutoff_score : Option ℚ) (fuel : Nat)
    (current_path : List Coord) (pending_stack paths : List (List Coord)) :
    BackTrack.find_paths m cutoff_score (fuel + 1) current_path pending_stack paths =
      match current_path.getLast? with
      | none => none
      | some (row, col) =>
        if (row = 0 ∧ col = 0) ∨ leCutoff (m row col).score? cutoff_score = true then
          match pending_stack with
          | next_path :: rest =>
            BackTrack.find_paths m cutoff_score fuel next_path rest (paths ++ [current_path])
          | [] => some (paths ++ [current_path])
        else
          match (m row col).discr with
          | 1 =>
            BackTrack.find_paths m cutoff_score fuel (current_path ++ [(row - 1, col)])
              pending_stack paths
          | 2 =>
            BackTrack.find_paths m cutoff_score fuel (current_path ++ [(row - 1, col - 1)])
              pending_stack paths
          | 4 =>
            BackTrack.find_paths m cutoff_score fuel (current_path ++ [(row, col - 1)])
              pending_stack paths
          | 3 =>
            BackTrack.find_paths m cutoff_score fuel (current_path ++ [(row - 1, col - 1)])
              ((current_path ++ [(row - 1, col)]) :: pending_stack) paths
          | 6 =>
            BackTrack.find_paths m cutoff_score fuel (current_path ++ [(row - 1, col - 1)])
              ((current_path ++ [(row, col - 1)]) :: pending_stack) paths
          | 5 =>
            BackTrack.find_paths m cutoff_score fuel (current_path ++ [(row - 1, col)])
              ((current_path ++ [(row, col - 1)]) :: pending_stack) paths
          | 7 =>
            BackTrack.find_paths m cutoff_score fuel (current_path ++ [(row - 1, col - 1)])
              ((current_path ++ [(row - 1, col)]) :: (current_path ++ [(row, col - 1)]) ::
                pending_stack) paths
          | _ => none := rfl

/-- Main soundness invariant of the explicit-stack backtracker: on a
direction-sane matrix, every path it returns is a good path from the
start coordinate ending at a stop cell. -/
theorem find_paths_invariant (m : MatF) (cutoff : Option ℚ) (hWF : DirWF m) (h0 : Coord) :
    ∀ (fuel : Nat) (current : List Coord) (pending paths out : List (List Coord)),
      BackTrack.find_paths m cutoff fuel current pending paths = some out →
      GoodPath h0 current →
      (∀ p ∈ pending, GoodPath h0 p) →
      (∀ p ∈ paths, EmittedPath m cutoff h0 p) →
      ∀ p ∈ out, EmittedPath m cutoff h0 p := by
  intro fuel
  induction fuel with
  | zero =>
    intro current pending paths out h
    simp [BackTrack.find_paths] at h
  | succ fuel ih =>
    intro current pending paths out h hcur hpend hpaths
    rw [BackTrack.find_paths_succ] at h
    cases hlast : current.getLast? with
    | none => rw [hlast] at h; simp at h
    | some rc =>
      obtain ⟨row, col⟩ := rc
      rw [hlast] at h
      dsimp only at h
      by_cases hstop : (row = 0 ∧ col = 0) ∨ leCutoff (m row col).score? cutoff = true
      · rw [if_pos hstop] at h
        have hemit : EmittedPath m cutoff h0 current := ⟨hcur, (row, col), hlast, hstop⟩
        have hpaths' : ∀ p ∈ paths ++ [current], EmittedPath m cutoff h0 p := by
          intro p hp
          rcases List.mem_append.mp hp with h' | h'
          · exact hpaths p h'
          · rw [List.mem_singleton.mp h']
            exact hemit
        cases pending with
        | nil =>
          dsimp only at h
          cases h
          exact hpaths'
        | cons next rest =>
          dsimp only at h
          exact ih next rest (paths ++ [current]) out h
            (hpend next (List.mem_cons_self _ _))
            (fun p hp => hpend p (List.mem_cons_of_mem _ hp)) hpaths'
      · rw [if_neg hstop] at h
        have hno : ¬(row = 0 ∧ col = 0) := fun hc => hstop (Or.inl hc)
        have hWFc := hWF row col hno
        cases hcell : m row col with
        | Empty => rw [hcell] at h; simp [BackTrack.discr] at h
        | T v =>
          rw [hcell] at h
          dsimp only [BackTrack.discr] at h
          have hrow : 0 < row := hWFc.1 (by rw [hcell]; rfl)
          exact ih _ _ _ out h
            (hcur.extend hlast (Or.inr (Or.inl ⟨hrow, rfl⟩))) hpend hpaths
        | D v =>
          rw [hcell] at h
          dsimp only [BackTrack.discr] at h
          have hrc : 0 < row ∧ 0 < col := hWFc.2.1 (by rw [hcell]; rfl)
          exact ih _ _ _ out h
            (hcur.extend hlast (Or.inl ⟨hrc.1, hrc.2, rfl⟩)) hpend hpaths
        | L v =>
          rw [hcell] at h
          dsimp only [BackTrack.discr] at h
          have hcol : 0 < col := hWFc.2.2 (by rw [hcell]; rfl)
          exact ih _ _ _ out h
            (hcur.extend hlast (Or.inr (Or.inr ⟨hcol, rfl⟩))) hpend hpaths
        | DT v =>
          rw [hcell] at h
          dsimp only [BackTrack.discr] at h
          have hrow : 0 < row := hWFc.1 (by rw [hcell]; rfl)
          have hrc : 0 < row ∧ 0 < col := hWFc.2.1 (by rw [hcell]; rfl)
          refine ih _ _ _ out h
            (hcur.extend hlast (Or.inl ⟨hrc.1, hrc.2, rfl⟩)) ?_ hpaths
          intro p hp
          rcases List.mem_cons.mp hp with h' | h'
          · rw [h']
            exact hcur.extend hlast (Or.inr (Or.inl ⟨hrow, rfl⟩))
          · exact hpend p h'
        | DL v =>
          rw [hcell] at h
          dsimp only [BackTrack.discr] at h
          have hcol : 0 < col := hWFc.2.2 (by rw [hcell]; rfl)
          have hrc : 0 < row ∧ 0 < col := hWFc.2.1 (by rw [hcell]; rfl)
          refine ih _ _ _ out h
            (hcur.extend hlast (Or.inl ⟨hrc.1, hrc.2, rfl⟩)) ?_ hpaths
          intro p hp
          rcases List.mem_cons.mp hp with h' | h'
          · rw [h']
            exact hcur.extend hlast (Or.inr (Or.inr ⟨hcol, rfl⟩))
          · exact hpend p h'
        | TL v =>
          rw [hcell] at h
          dsimp only [BackTrack.discr] at h
          have hrow : 0 < row := hWFc.1 (by rw [hcell]; rfl)
          have hcol : 0 < col := hWFc.2.2 (by rw [hcell]; rfl)
          refine ih _ _ _ out h
            (hcur.extend hlast (Or.inr (Or.inl ⟨hrow, rfl⟩))) ?_ hpaths
          intro p hp
          rcases List.mem_cons.mp hp with h' | h'
          · rw [h']
            exact hcur.extend hlast (Or.inr (Or.inr ⟨hcol, rfl⟩))
          · exact hpend p h'
        | All v =>
          rw [hcell] at h
          dsimp only [BackTrack.discr] at h
          have hrow : 0 < row := hWFc.1 (by rw [hcell]; rfl)
          have hcol : 0 < col := hWFc.2.2 (by rw [hcell]; rfl)
          have hrc : 0 < row ∧ 0 < col := hWFc.2.1 (by rw [hcell]; rfl)
          refine ih _ _ _ out h
            (hcur.extend hlast (Or.inl ⟨hrc.1, hrc.2, rfl⟩)) ?_ hpaths
          intro p hp
          rcases List.mem_cons.mp hp with h' | h'
          · rw [h']
            exact hcur.extend hlast (Or.inr (Or.inl ⟨hrow, rfl⟩))
          · rcases List.mem_cons.mp h' with h'' | h''
            · rw [h'']
              exact hcur.extend hlast (Or.inr (Or.inr ⟨hcol, rfl⟩))
            · exact hpend p h''

/-- Step-counting along a chain of unit moves: the number of steps is at
least each coordinate drop and at most their sum. -/
theorem chain_bounds :
    ∀ (p : List Coord) (a c : Coord),
      List.Chain' StepRel (a :: p) → (a :: p).getLast? = some c →
      c.1 ≤ a.1 ∧ c.2 ≤ a.2 ∧ a.1 - c.1 ≤ p.length ∧ a.2 - c.2 ≤ p.length ∧
        p.length ≤ (a.1 - c.1) + (a.2 - c.2) := by
  intro p
  induction p with
  | nil =>
    intro a c _ hlast
    simp only [List.getLast?_singleton, Option.some.injEq] at hlast
    rw [← hlast]
    simp only [List.length_nil]
    omega
  | cons b p ih =>
    intro a c hchain hlast
    have hstep : StepRel a b := (List.chain'_cons.mp hchain).1
    have hchain' : List.Chain' StepRel (b :: p) := (List.chain'_cons.mp hchain).2
    have hlast' : (b :: p).getLast? = some c := by
      rw [← hlast]
      rfl
    have hb := ih b c hchain' hlast'
    obtain ⟨a1, a2⟩ := a
    obtain ⟨b1, b2⟩ := b
    rcases hstep with ⟨h1, h2, hq⟩ | ⟨h1, hq⟩ | ⟨h1, hq⟩ <;>
      (injection hq with hq1 hq2
       simp only [List.length_cons]
       simp only at hq1 hq2
       omega)

/-- A successful `AlignmentSequence::new` emits exactly one symbol pair per
path step. -/
theorem AlignmentSequence.new_length {α : Type} (backtrack_path : List Coord)
    (sequence_left sequence_top : List α) (pairs : List (Option α × Option α))
    (h : AlignmentSequence.new backtrack_path sequence_left sequence_top = some pairs) :
    pairs.length = backtrack_path.length - 1 := by
  have := foldlM_map_append_length
    (AlignmentSequence.step backtrack_path sequence_left sequence_top)
    (List.range (backtrack_path.length - 1)).reverse [] pairs h
  simpa using this

/-- Border discipline of a filled matrix: row 0 never points up or
diagonally, column 0 never points left or diagonally.  Interior cells are
unconstrained. -/
def BorderOK (m : MatF) : Prop :=
  (∀ c : Nat, c ≠ 0 → (m 0 c).hasT = false ∧ (m 0 c).hasD = false) ∧
  (∀ r : Nat, r ≠ 0 → (m r 0).hasD = false ∧ (m r 0).hasL = false)

/-- `BorderOK` gives `DirWF`. -/
theorem BorderOK.dirWF {m : MatF} (h : BorderOK m) : DirWF m := by
  intro r c hno
  rcases Nat.eq_zero_or_pos r with hr | hr
  · subst hr
    have hc : c ≠ 0 := fun hc => hno ⟨rfl, hc⟩
    obtain ⟨hT, hD⟩ := h.1 c hc
    refine ⟨fun ht => ?_, fun hd => ?_, fun _ => Nat.pos_of_ne_zero hc⟩
    · rw [hT] at ht; cases ht
    · rw [hD] at hd; cases hd
  · rcases Nat.eq_zero_or_pos c with hc | hc
    · subst hc
      have hr' : r ≠ 0 := Nat.pos_iff_ne_zero.mp hr
      obtain ⟨hD, hL⟩ := h.2 r hr'
      refine ⟨fun _ => hr, fun hd => ?_, fun hl => ?_⟩
      · rw [hD] at hd; cases hd
      · rw [hL] at hl; cases hl
    · exact ⟨fun _ => hr, fun _ => ⟨hr, hc⟩, fun _ => hc⟩

/-- A write at an interior cell preserves the border discipline. -/
theorem BorderOK.write {m : MatF} (h : BorderOK m) {i j : Nat} (hi : 1 ≤ i) (hj : 1 ≤ j)
    (v : BackTrack) : BorderOK (m.write i j v) := by
  constructor
  · intro c hc
    rw [MatF.write_ne m i j 0 c v (by omega)]
    exact h.1 c hc
  · intro r hr
    rw [MatF.write_ne m i j r 0 v (by omega)]
    exact h.2 r hr

/-- Anatomy of one successful Global solver step. -/
theorem NeedlemanWunsch.nw_solveCell_shape {α : Type} (cfg : ScoringSchema α)
    (sl st : List α) (matrix : MatF) (ij : Coord) (m' : MatF)
    (h : NeedlemanWunsch.solveCell cfg sl st matrix ij = some m') :
    ∃ top diagonal left backtrack score,
      BackTrack.make_backtrack top diagonal left = some (backtrack, score) ∧
      m' = matrix.write ij.1 ij.2 backtrack := by
  unfold NeedlemanWunsch.solveCell at h
  obtain ⟨diagonal, hd, h⟩ := Option.bind_eq_some.mp h
  obtain ⟨top, ht, h⟩ := Option.bind_eq_some.mp h
  obtain ⟨left, hl, h⟩ := Option.bind_eq_some.mp h
  obtain ⟨btsc, hmb, h⟩ := Option.bind_eq_some.mp h
  obtain ⟨backtrack, score⟩ := btsc
  cases h
  exact ⟨top, diagonal, left, backtrack, score, hmb, rfl⟩

/-- The Global border initialisation satisfies the border discipline. -/
theorem NeedlemanWunsch.nw_initMatrix_borderOK {α : Type} (cfg : ScoringSchema α)
    (rows cols : Nat) (m0 : MatF)
    (h : NeedlemanWunsch.initMatrix cfg rows cols = some m0) : BorderOK m0 := by
  unfold NeedlemanWunsch.initMatrix at h
  obtain ⟨m1, h1, h2⟩ := Option.bind_eq_some.mp h
  have hbase : BorderOK (MatF.write (fun _ _ => BackTrack.Empty) 0 0 (.D 0)) := by
    constructor
    · intro c hc
      rw [MatF.write_ne _ _ _ _ _ _ (by omega)]
      exact ⟨rfl, rfl⟩
    · intro r hr
      rw [MatF.write_ne _ _ _ _ _ _ (by omega)]
      exact ⟨rfl, rfl⟩
  have hm1 : BorderOK m1 := by
    refine foldlM_option_inv _ BorderOK _ ?_ _ m1 h1 hbase
    intro s i s' _ hf hs
    obtain ⟨v, _, hs'⟩ := Option.map_eq_some'.mp hf
    rw [← hs']
    constructor
    · intro c hc
      rw [MatF.write_ne _ _ _ _ _ _ (by omega)]
      exact hs.1 c hc
    · intro r hr
      by_cases hri : r = i
      · subst hri
        rw [MatF.write_self]
        exact ⟨rfl, rfl⟩
      · rw [MatF.write_ne _ _ _ _ _ _ (by tauto)]
        exact hs.2 r hr
  refine foldlM_option_inv _ BorderOK _ ?_ _ m0 h2 hm1
  intro s j s' _ hf hs
  obtain ⟨v, _, hs'⟩ := Option.map_eq_some'.mp hf
  rw [← hs']
  constructor
  · intro c hc
    by_cases hcj : c = j
    · subst hcj
      rw [MatF.write_self]
      exact ⟨rfl, rfl⟩
    · rw [MatF.write_ne _ _ _ _ _ _ (by tauto)]
      exact hs.1 c hc
  · intro r hr
    rw [MatF.write_ne _ _ _ _ _ _ (by omega)]
    exact hs.2 r hr

/-- The matrix produced by the Global solve is direction-sane. -/
theorem NeedlemanWunsch.solve_dirWF {α : Type} (cfg : ScoringSchema α)
    (sl st : List α) (m : MatF)
    (h : NeedlemanWunsch.solve cfg sl st = some m) : DirWF m := by
  unfold NeedlemanWunsch.solve at h
  obtain ⟨m0, h0, h1⟩ := Option.bind_eq_some.mp h
  have hb0 : BorderOK m0 := NeedlemanWunsch.nw_initMatrix_borderOK cfg _ _ m0 h0
  have hb : BorderOK m := by
    refine foldlM_option_inv _ BorderOK _ ?_ _ m h1 hb0
    intro s x s' hx hf hs
    obtain ⟨top, diagonal, left, bt, sc, _, hs'⟩ :=
      NeedlemanWunsch.nw_solveCell_shape cfg sl st s x s' hf
    obtain ⟨hi, _, hj, _⟩ := mem_interiorIndices hx
    rw [hs']
    exact hs.write hi hj bt
  exact hb.dirWF

/-- The Local border initialisation satisfies the border discipline. -/
theorem SmithWaterman.sw_initMatrix_borderOK : BorderOK SmithWaterman.initMatrix := by
  constructor
  · intro c hc
    simp [SmithWaterman.initMatrix, hc, BackTrack.hasT, BackTrack.hasD]
  · intro r hr
    simp [SmithWaterman.initMatrix, hr, BackTrack.hasD, BackTrack.hasL]

/-- The Local solve yields a direction-sane matrix and in-range maximum
indices. -/
theorem SmithWaterman.solve_inv {α : Type} (cfg : ScoringSchema α)
    (sl st : List α) (res : SWState)
    (h : SmithWaterman.solve cfg sl st = some res) :
    DirWF res.1 ∧ ∀ ij ∈ res.2.2, ij.1 ≤ sl.length ∧ ij.2 ≤ st.length := by
  have key : BorderOK res.1 ∧ ∀ ij ∈ res.2.2, ij.1 ≤ sl.length ∧ ij.2 ≤ st.length := by
    unfold SmithWaterman.solve at h
    refine foldlM_option_inv _
      (fun s => BorderOK s.1 ∧ ∀ ij ∈ s.2.2, ij.1 ≤ sl.length ∧ ij.2 ≤ st.length) _
      ?_ _ res h ⟨SmithWaterman.sw_initMatrix_borderOK, by simp⟩
    intro s x s' hx hf hs
    obtain ⟨d0, t0, l0, bt, cm, _, hs'⟩ := SmithWaterman.sw_solveCell_shape cfg sl st s x s' hf
    obtain ⟨hi, hi', hj, hj'⟩ := mem_interiorIndices hx
    rw [hs']
    constructor
    · exact hs.1.write hi hj bt
    · intro ij hij
      dsimp only at hij
      unfold SmithWaterman.update_maximum_entries at hij
      have hxb : x.1 ≤ sl.length ∧ x.2 ≤ st.length := by
        constructor <;> omega
      cases hgm : s.2.1 with
      | none =>
        rw [hgm] at hij
        simp only [List.mem_singleton] at hij
        rw [hij]
        exact hxb
      | some g =>
        rw [hgm] at hij
        dsimp only at hij
        split_ifs at hij
        · simp only [List.mem_singleton] at hij
          rw [hij]
          exact hxb
        · rcases List.mem_append.mp hij with h' | h'
          · exact hs.2 ij h'
          · rw [List.mem_singleton.mp h']
            exact hxb
        · exact hs.2 ij hij
  exact ⟨key.1.dirWF, key.2⟩

/-- With no cutoff (the Global `-∞`), a stop cell is the origin. -/
theorem StopCell.none_eq_origin {m : MatF} {c : Coord}
    (h : StopCell m none c) : c = (0, 0) := by
  rcases h with ⟨h1, h2⟩ | h2
  · exact Prod.ext h1 h2
  · exfalso
    unfold leCutoff at h2
    cases (m c.1 c.2).score? <;> simp at h2

/-- C5 (corrected): every Alignment a Global run emits has length between
`max(|S|, |T|)` and `|S| + |T|`; an Alignment emitted by a Local run obeys
the upper bound `|S| + |T|` (its length can fall below `max(|S|, |T|)`). -/
theorem C5_alignment_length_bounds :
    (∀ {α : Type} (cfg : ScoringSchema α) (sl st : List α) (fuel : Nat)
        (out : List (List (Option α × Option α))),
      NeedlemanWunsch.run cfg sl st fuel = some out →
      ∀ al ∈ out, max sl.length st.length ≤ al.length ∧
        al.length ≤ sl.length + st.length) ∧
    (∀ {α : Type} (cfg : ScoringSchema α) (sl st : List α) (fuel : Nat)
        (out : List (List (Option α × Option α))),
      SmithWaterman.run cfg sl st fuel = some out →
      ∀ al ∈ out, al.length ≤ sl.length + st.length) := by
  constructor
  · intro α cfg sl st fuel out hrun al hal
    unfold NeedlemanWunsch.run at hrun
    obtain ⟨ps, hps, hfold⟩ := Option.bind_eq_some.mp hrun
    rcases foldlM_map_append_mem _ ps [] out hfold al hal with hmem | ⟨p, hp, hnew⟩
    · exact absurd hmem (List.not_mem_nil _)
    · unfold NeedlemanWunsch.paths at hps
      obtain ⟨mtx, hsolve, hbt⟩ := Option.bind_eq_some.mp hps
      have hWF : DirWF mtx := NeedlemanWunsch.solve_dirWF cfg sl st mtx hsolve
      have hemit := find_paths_invariant mtx none hWF (sl.length, st.length) fuel
        [(sl.length, st.length)] [] [] ps hbt
        ⟨by simp, by simp, List.chain'_singleton _⟩ (by simp) (by simp) p hp
      obtain ⟨⟨hne, hhead, hchain⟩, c, hlastc, hstopc⟩ := hemit
      have hc00 : c = (0, 0) := StopCell.none_eq_origin hstopc
      subst hc00
      cases p with
      | nil => exact absurd rfl hne
      | cons a rest =>
        have ha : a = (sl.length, st.length) := by
          simpa using hhead
        subst ha
        have hb := chain_bounds rest (sl.length, st.length) (0, 0) hchain hlastc
        have hlen := AlignmentSequence.new_length _ sl st al hnew
        simp only [List.length_cons] at hlen
        simp only at hb
        refine ⟨Nat.max_le.mpr ⟨?_, ?_⟩, ?_⟩ <;> omega
  · intro α cfg sl st fuel out hrun al hal
    unfold SmithWaterman.run at hrun
    obtain ⟨aps, h1, hrun⟩ := Option.bind_eq_some.mp hrun
    obtain ⟨lp, h2, hrun⟩ := Option.bind_eq_some.mp hrun
    obtain ⟨al', h3, hrun⟩ := Option.bind_eq_some.mp hrun
    cases hrun
    have hal' : al = al' := by simpa using hal
    subst hal'
    have hlp := SmithWaterman.longest_mem aps lp h2
    unfold SmithWaterman.all_pathsOf at h1
    obtain ⟨res, hsolve, hcol⟩ := Option.bind_eq_some.mp h1
    obtain ⟨mtx, gm, idxs⟩ := res
    obtain ⟨hWF, hbounds⟩ := SmithWaterman.solve_inv cfg sl st (mtx, gm, idxs) hsolve
    rcases foldlM_append_list_mem _ idxs [] aps hcol lp hlp with hmem | ⟨ij, hij, ps, hbt, hps⟩
    · exact absurd hmem (List.not_mem_nil _)
    · unfold BackTrack.backtracking at hbt
      have hemit := find_paths_invariant mtx (some 0) hWF (ij.1, ij.2) fuel
        [(ij.1, ij.2)] [] [] ps hbt
        ⟨by simp, by simp, List.chain'_singleton _⟩ (by simp) (by simp) lp hps
      obtain ⟨⟨hne, hhead, hchain⟩, c, hlastc, _⟩ := hemit
      cases lp with
      | nil => exact absurd rfl hne
      | cons a rest =>
        have ha : a = (ij.1, ij.2) := by
          simpa using hhead
        subst ha
        have hb := chain_bounds rest (ij.1, ij.2) c hchain hlastc
        have hlen := AlignmentSequence.new_length _ sl st al h3
        simp only [List.length_cons] at hlen
        simp only at hb
        have hij' := hbounds ij hij
        omega

attribute [local semireducible] Rat.add Rat.sub Rat.mul in
/-- C5 counterexample: the Local run on `[A]` vs `[A, A]` under BLOSUM62 /
affine (10, 1) emits an Alignment of length 1, below
`max(|S|, |T|) = 2`. -/
theorem C5_counterexample :
    (SmithWaterman.run cfgBlosum62Affine [Aac.A] [Aac.A, Aac.A] 100).map
        (fun out => out.map List.length) = some [1] ∧
    max (List.length [Aac.A]) (List.length [Aac.A, Aac.A]) = 2 ∧ ¬(2 ≤ 1) :=
  ⟨by decide, by decide, by decide⟩

attribute [local semireducible] Rat.add Rat.sub Rat.mul in
/-- Witness for C5: the concrete Global and Local runs on `[A]` vs
`[A, A]` under BLOSUM62 / affine (10, 1). -/
theorem C5_witness :
    (NeedlemanWunsch.run cfgBlosum62Affine [Aac.A] [Aac.A, Aac.A] 100 =
        some [[(none, some Aac.A), (some Aac.A, some Aac.A)],
          [(some Aac.A, some Aac.A), (none, some Aac.A)]] ∧
      ∀ al ∈ ([[(none, some Aac.A), (some Aac.A, some Aac.A)],
          [(some Aac.A, some Aac.A), (none, some Aac.A)]] :
            List (List (Option Aac × Option Aac))),
        max (List.length [Aac.A]) (List.length [Aac.A, Aac.A]) ≤ al.length ∧
          al.length ≤ List.length [Aac.A] + List.length [Aac.A, Aac.A]) ∧
    (SmithWaterman.run cfgBlosum62Affine [Aac.A] [Aac.A, Aac.A] 100 =
        some [[(some Aac.A, some Aac.A)]] ∧
      ∀ al ∈ ([[(some Aac.A, some Aac.A)]] : List (List (Option Aac × Option Aac))),
        al.length ≤ List.length [Aac.A] + List.length [Aac.A, Aac.A]) :=
  ⟨⟨by decide,
    C5_alignment_length_bounds.1 cfgBlosum62Affine [Aac.A] [Aac.A, Aac.A] 100 _
      (by decide)⟩,
   ⟨by decide,
    C5_alignment_length_bounds.2 cfgBlosum62Affine [Aac.A] [Aac.A, Aac.A] 100 _
      (by decide)⟩⟩
